import Mathlib

/-!
Verification of the KanjiVG core library (`kvg` Go package).

This file gives a shallow embedding of the package's document model
(`SVG`, `Group`, `Child`, `Path`, `Text`), its renumbering engine
(`renumber`, `SetBase`, `RenumberLabels`, `RenumberXML`, `SetStyle`,
`removeChildStyles`), its codec at the XML-token level (`MakeXML`,
`ParseKanji`), its structural query operation `FindMultiElement`, and
its filename-grammar utilities (`filePartRe` / `FileToParts` /
`Variant`), and proves properties of these definitions.

Modelling conventions, used throughout:
* Go functions that mutate the document through pointers are embedded as
  functions from the document value to an updated document value.
* Go slice/string indexing that can panic, and `log.Fatalf` (which
  terminates the process), are made explicit in result types:
  `Option` is used where the only failure is a panic, and `SBResult`
  distinguishes a fatal process exit from a normal return.
* Go `int64` counters are modelled as `Nat`: they only ever start at 0
  and are incremented once per tree node, so overflow cannot occur for
  any tree the program can hold in memory.
* Strings are modelled by Lean `String`; the files handled by the
  package use ASCII identifiers, so Go's byte-indexed slicing agrees
  with character-indexed slicing on every string the code slices.
-/

namespace kvg

/-- Attributes of a `Group` (source `Group` struct, minus the
`XMLName`/`Children`/`Parent` fields; `Children` is kept separately so
that `Child` below can nest, and `Parent` is a non-owning back-reference
excluded from equality and serialization).  Field `Partl` embeds the Go
field spelled P-a-r-t-i-a-l; `Typ` below likewise stands for the Go
field spelled T-y-p-e (a Lean keyword). -/
structure GAttrs where
  ID : String := ""
  Element : String := ""
  Part : String := ""
  Variant : Bool := false
  Number : String := ""
  Original : String := ""
  Partl : Bool := false
  TradForm : String := ""
  Position : String := ""
  Radical : String := ""
  Phon : String := ""
  RadicalForm : String := ""
  Style : String := ""
  deriving DecidableEq, Repr

/-- A path: one stroke of the kanji (source `Path` struct, minus
`XMLName` and the `Parent` back-reference). -/
structure Path where
  ID : String := ""
  Typ : String := ""
  D : String := ""
  Class : String := ""
  deriving DecidableEq, Repr

/-- Text holder for a stroke number (source `Text` struct, minus
`XMLName` and `Parent`).  `Content` models the `[]byte` chardata. -/
structure Text where
  Transform : String := ""
  Content : String := ""
  Class : String := ""
  deriving DecidableEq, Repr

/-- A `Child` is the Go struct holding a `Path`, a `Group` and a `Text`
field TOGETHER with two tag booleans; all three payloads are always
present (the inactive ones hold Go zero values).  The contained group is
stored as its attribute record plus its child list so that the type can
nest. -/
inductive Child where
  | mk (path : Path) (gattrs : GAttrs) (gchildren : List Child) (text : Text)
       (IsGroup IsText : Bool)

/-- A group: attribute record plus ordered children (source `Group`). -/
structure Group where
  attrs : GAttrs := {}
  Children : List Child := []

def Child.path : Child → Path
  | .mk p _ _ _ _ _ => p

def Child.gattrs : Child → GAttrs
  | .mk _ ga _ _ _ _ => ga

def Child.gchildren : Child → List Child
  | .mk _ _ gc _ _ _ => gc

def Child.text : Child → Text
  | .mk _ _ _ t _ _ => t

def Child.IsGroup : Child → Bool
  | .mk _ _ _ _ ig _ => ig

def Child.IsText : Child → Bool
  | .mk _ _ _ _ _ it => it

/-- The `Group` value stored in a `Child` (Go field access `c.Group`);
available regardless of the tag booleans, exactly as in Go. -/
def Child.group (c : Child) : Group := ⟨c.gattrs, c.gchildren⟩

/-- Build a `Child` holding a group; the path and text slots hold their
zero values, as in Go. -/
def groupChild (g : Group) : Child := .mk {} g.attrs g.Children {} true false

/-- Build a `Child` holding a path (zero group and text slots). -/
def pathChild (p : Path) : Child := .mk p {} [] {} false false

/-- Build a `Child` holding a text (zero path and group slots). -/
def textChild (t : Text) : Child := .mk {} {} [] t false true

/-- An entire file (source `SVG` struct, minus `XMLName`). -/
structure SVG where
  XMLNS : String := ""
  Width : String := ""
  Height : String := ""
  ViewBox : String := ""
  Groups : List Group := []

mutual

/-- Source `renumber` (lines 347-358): renumber the groups and strokes
recursively.  The two `int64` counters passed by pointer in Go are
threaded as state `(nP, nG)`.  A group child is given id
`base ++ "-g" ++ nG` after incrementing `nG` and then its children are
visited; every non-group child (the Go `else` branch, which does not
look at `IsText`) is given path id `base ++ "-s" ++ nP` after
incrementing `nP`. -/
def renumberChild (base : String) (c : Child) (nP nG : Nat) : Child × Nat × Nat :=
  match c with
  | .mk p ga gc t ig it =>
    if ig then
      let nG1 := nG + 1
      let r := renumberChildren base gc nP nG1
      (.mk p { ga with ID := base ++ "-g" ++ toString nG1 } r.1 t ig it, r.2.1, r.2.2)
    else
      let nP1 := nP + 1
      (.mk { p with ID := base ++ "-s" ++ toString nP1 } ga gc t ig it, nP1, nG)

/-- The loop `for i := range child.Group.Children { renumber(...) }`
over a list of children, threading the two counters left to right. -/
def renumberChildren (base : String) (cs : List Child) (nP nG : Nat) :
    List Child × Nat × Nat :=
  match cs with
  | [] => ([], nP, nG)
  | c :: rest =>
    let r1 := renumberChild base c nP nG
    let r2 := renumberChildren base rest r1.2.1 r1.2.2
    (r1.1 :: r2.1, r2.2.1, r2.2.2)

end

/-- Source `BaseGroup` (lines 329-331): `&kvg.Groups[0].Children[0].Group`.
Go panics when `Groups` or `Groups[0].Children` is empty (modelled by
`none`); otherwise it returns the `.Group` field of the first child of
the first top-level group WITHOUT checking that child's tag. -/
def BaseGroup (kvg : SVG) : Option Group :=
  match kvg.Groups with
  | [] => none
  | g0 :: _ =>
    match g0.Children with
    | [] => none
    | c0 :: _ => some c0.group

/-- `startsWithL pat l` holds when `pat` is a prefix of `l`. -/
def startsWithL : List Char → List Char → Bool
  | [], _ => true
  | _ :: _, [] => false
  | p :: ps, c :: cs => p = c && startsWithL ps cs

/-- The namespace prefix `"kvg:"` as characters. -/
def kvgPrefix : List Char := ['k', 'v', 'g', ':']

/-- `strings.Replace(base, "kvg:", "", 1)`: delete the first (leftmost)
occurrence of `"kvg:"`, anywhere in the string, leaving the rest. -/
def replaceFirstKvg : List Char → List Char
  | [] => []
  | c :: rest =>
    if startsWithL kvgPrefix (c :: rest) then (c :: rest).drop 4
    else c :: replaceFirstKvg rest

/-- Source `Base` (lines 362-367): the base group's id together with
that id with the first `"kvg:"` removed.  `none` models the panic of
`BaseGroup` on a document with no top-level group or an empty first
group. -/
def Base (kvg : SVG) : Option (String × String) :=
  (BaseGroup kvg).map fun g =>
    (g.attrs.ID, String.mk (replaceFirstKvg g.attrs.ID.toList))

/-- Result of `SetBase`.  `fatal` models `log.Fatalf`, which terminates
the calling process (it never returns); `oob` models a Go runtime panic
from out-of-range slicing/indexing, which also aborts the caller. -/
inductive SBResult where
  | ok (svg : SVG)
  | fatal (msg : String)
  | oob

def SBResult.isOk : SBResult → Bool
  | .ok _ => true
  | _ => false

def SBResult.isAbort : SBResult → Bool
  | .ok _ => false
  | _ => true

/-- Source `SetBase` (lines 376-394).  Go first slices `base[0:4]`
(panicking when `base` is shorter than 4 bytes), then compares it with
`"kvg:"` and calls `log.Fatalf` on mismatch; then it takes the base
group (panicking when absent), sets its id to `base`, sets
`Groups[0].ID` and — only when a second top-level group exists —
`Groups[1].ID` to the derived `StrokePaths_`/`StrokeNumbers_` ids, and
renumbers the base group's children with both counters starting at 0. -/
def SetBase (kvg : SVG) (base : String) : SBResult :=
  if base.length < 4 then .oob
  else if base.take 4 ≠ "kvg:" then
    .fatal ("Base name " ++ base ++ " does not start with kvg:")
  else
    match kvg.Groups with
    | [] => .oob
    | g0 :: grest =>
      match g0.Children with
      | [] => .oob
      | c0 :: crest =>
        let tail := base.drop 4
        let c0' : Child :=
          .mk c0.path { c0.gattrs with ID := base }
            (renumberChildren base c0.gchildren 0 0).1 c0.text c0.IsGroup c0.IsText
        let g0' : Group :=
          { attrs := { g0.attrs with ID := "kvg:StrokePaths_" ++ tail },
            Children := c0' :: crest }
        match grest with
        | [] => .ok { kvg with Groups := [g0'] }
        | g1 :: grest2 =>
          .ok { kvg with Groups :=
            g0' :: { g1 with attrs := { g1.attrs with ID := "kvg:StrokeNumbers_" ++ tail } } :: grest2 }

/-- The loop body of `RenumberLabels` starting at position `k` (1-based
in the source: label `i+1` for index `i`): a text child has its content
overwritten with its ordinal; a non-text child is logged and skipped,
but still occupies an ordinal. -/
def relabelFrom (k : Nat) : List Child → List Child
  | [] => []
  | .mk p ga gc t ig it :: cs =>
    (if it then Child.mk p ga gc { t with Content := toString k } ig it
     else Child.mk p ga gc t ig it) :: relabelFrom (k + 1) cs

/-- Source `RenumberLabels` (lines 400-410): relabels the children of
`kvg.Groups[1]`.  The index expression `kvg.Groups[1]` is evaluated
unconditionally, so a document with fewer than two top-level groups
panics (modelled by `none`).  The local `labels := kvg.Groups[1]` copies
the struct, but its `Children` slice shares its backing array with the
document, and the loop writes through `&labels.Children[i]`, so the
writes do reach the document. -/
def RenumberLabels (kvg : SVG) : Option SVG :=
  match kvg.Groups with
  | g0 :: g1 :: grest =>
    some { kvg with Groups := g0 :: { g1 with Children := relabelFrom 1 g1.Children } :: grest }
  | _ => none

mutual

/-- What the loop body of `removeChildStyles` computes on the COPY of
one child it iterates over: clear a group child's style and recurse. -/
def removeChildStylesCopy : Child → Child
  | .mk p ga gc t ig it =>
    if ig then Child.mk p { ga with Style := "" } (removeChildStylesLoop gc) t ig it
    else Child.mk p ga gc t ig it

/-- What the whole loop computes on the copies, before discarding. -/
def removeChildStylesLoop : List Child → List Child
  | [] => []
  | c :: cs => removeChildStylesCopy c :: removeChildStylesLoop cs

end

/-- Source `removeChildStyles` (lines 433-441).  The Go loop is
`for _, child := range c`: `child` is a copy of each element of
`g.Children`, `child.Group.Style = ""` writes into that copy, and the
recursive call descends into the copy; no write is ever made through a
pointer into `g`'s own tree, and the copies are discarded when each
iteration ends.  The function therefore leaves the tree reachable from
`g` unchanged; the discarded computation is `removeChildStylesLoop`. -/
def removeChildStyles (g : Group) : Group :=
  let _ := removeChildStylesLoop g.Children
  g

/-- The fixed stroke-paint style string set on `Groups[0]`. -/
def strokeStyle : String :=
  "fill:none;stroke:#000000;stroke-width:3;stroke-linecap:round;stroke-linejoin:round;"

/-- The fixed label style string set on `Groups[1]`. -/
def labelStyle : String := "font-size:8;fill:#808080"

/-- Source `SetStyle` (lines 427-431): force-sets `Groups[0].Style` and
`Groups[1].Style` (panicking when either index is out of range) and then
calls `removeChildStyles` on `Groups[0]`. -/
def SetStyle (kvg : SVG) : Option SVG :=
  match kvg.Groups with
  | g0 :: g1 :: grest =>
    some { kvg with Groups :=
      removeChildStyles { g0 with attrs := { g0.attrs with Style := strokeStyle } } ::
        { g1 with attrs := { g1.attrs with Style := labelStyle } } :: grest }
  | _ => none

/-- Source `RenumberXML` (lines 414-424): read the base group's current
id, renumber the base group's children with fresh counters, then run
`RenumberLabels` and `SetStyle`.  `none` models any of the contained
panics (`BaseGroup` on a missing base group, `Groups[1]` on a document
with a single top-level group). -/
def RenumberXML (svg : SVG) : Option SVG :=
  match svg.Groups with
  | [] => none
  | g0 :: grest =>
    match g0.Children with
    | [] => none
    | c0 :: crest =>
      let base := c0.gattrs.ID
      let c0' : Child :=
        .mk c0.path c0.gattrs (renumberChildren base c0.gchildren 0 0).1 c0.text
          c0.IsGroup c0.IsText
      ((RenumberLabels { svg with Groups := { g0 with Children := c0' :: crest } :: grest }).bind
        SetStyle)

/-! ### Specification-side views of the tree used by the theorems -/

mutual

/-- Group identifiers in the subtree of one child, in depth-first
document (pre-) order: a group child contributes its own id followed by
its descendants; a non-group child contributes none. -/
def childGroupIds : Child → List String
  | .mk _ ga gc _ ig _ => if ig then ga.ID :: childrenGroupIds gc else []

/-- Group identifiers of a child list in document order. -/
def childrenGroupIds : List Child → List String
  | [] => []
  | c :: cs => childGroupIds c ++ childrenGroupIds cs

end

mutual

/-- Path identifiers in the subtree of one child, in depth-first
document order; a non-group child contributes its path id (exactly the
children the walk's `else` branch numbers). -/
def childPathIds : Child → List String
  | .mk p _ gc _ ig _ => if ig then childrenPathIds gc else [p.ID]

/-- Path identifiers of a child list in document order. -/
def childrenPathIds : List Child → List String
  | [] => []
  | c :: cs => childPathIds c ++ childrenPathIds cs

end

mutual

/-- Number of groups the renumbering walk visits inside one child. -/
def childGCount : Child → Nat
  | .mk _ _ gc _ ig _ => if ig then 1 + childrenGCount gc else 0

/-- Number of groups the walk visits in a child list. -/
def childrenGCount : List Child → Nat
  | [] => 0
  | c :: cs => childGCount c + childrenGCount cs

end

mutual

/-- Number of path visits the walk makes inside one child. -/
def childPCount : Child → Nat
  | .mk _ _ gc _ ig _ => if ig then childrenPCount gc else 1

/-- Number of path visits the walk makes in a child list. -/
def childrenPCount : List Child → Nat
  | [] => 0
  | c :: cs => childPCount c + childrenPCount cs

end

/-! ### Tree shape: tags and nesting with every attribute erased -/

/-- The pure shape of a child: its two tag booleans and the shapes of
the nested group's children. -/
inductive CShape where
  | node (ig it : Bool) (children : List CShape)

mutual

/-- Shape of one child. -/
def childShape : Child → CShape
  | .mk _ _ gc _ ig it => .node ig it (childrenShape gc)

/-- Shapes of a child list. -/
def childrenShape : List Child → List CShape
  | [] => []
  | c :: cs => childShape c :: childrenShape cs

end

mutual

/-- Group-visit count read off a shape. -/
def shapeGCount : CShape → Nat
  | .node ig _ cs => if ig then 1 + shapesGCount cs else 0

def shapesGCount : List CShape → Nat
  | [] => 0
  | s :: ss => shapeGCount s + shapesGCount ss

end

mutual

/-- Path-visit count read off a shape. -/
def shapePCount : CShape → Nat
  | .node ig _ cs => if ig then shapesPCount cs else 1

def shapesPCount : List CShape → Nat
  | [] => 0
  | s :: ss => shapePCount s + shapesPCount ss

end

/-! ### Erasure of the fields the renumbering operations may write -/

mutual

/-- Erase, everywhere in a child's subtree, the group identifier, the
group style and the path identifier (including the inactive path slot of
text-tagged children, which the walk's `else` branch also writes). -/
def eraseChild : Child → Child
  | .mk p ga gc t ig it =>
    .mk { p with ID := "" } { ga with ID := "", Style := "" } (eraseChildren gc) t ig it

def eraseChildren : List Child → List Child
  | [] => []
  | c :: cs => eraseChild c :: eraseChildren cs

end

/-- Erase a top-level group's own id/style and its subtree's. -/
def eraseGroup (g : Group) : Group :=
  ⟨{ g.attrs with ID := "", Style := "" }, eraseChildren g.Children⟩

/-- Erase the text content of a label child (text-tagged children only,
which are the ones `RenumberLabels` writes). -/
def eraseLabel : Child → Child
  | .mk p ga gc t ig it =>
    if it then .mk p ga gc { t with Content := "" } ig it else .mk p ga gc t ig it

/-- Erase every field any renumbering operation may write: all group
ids and styles, all path ids, and the text contents of the second
top-level group's text children. -/
def eraseMutSVG (svg : SVG) : SVG :=
  { svg with Groups :=
    match svg.Groups.map eraseGroup with
    | [] => []
    | [e0] => [e0]
    | e0 :: e1 :: rest => e0 :: { e1 with Children := e1.Children.map eraseLabel } :: rest }

/-- The identifiers the walk assigned: group-id list and path-id list of
the base group's subtree, in document order. -/
def svgWalkIds (svg : SVG) : Option (List String × List String) :=
  match svg.Groups with
  | [] => none
  | g0 :: _ =>
    match g0.Children with
    | [] => none
    | c0 :: _ => some (childrenGroupIds c0.gchildren, childrenPathIds c0.gchildren)

/-- The base identifier the walk reads. -/
def svgBaseId (svg : SVG) : Option String := (BaseGroup svg).map fun g => g.attrs.ID

/-- The shape of the base group's subtree. -/
def svgBaseShape (svg : SVG) : Option (List CShape) :=
  match svg.Groups with
  | [] => none
  | g0 :: _ =>
    match g0.Children with
    | [] => none
    | c0 :: _ => some (childrenShape c0.gchildren)

def SBResult.toOption : SBResult → Option SVG
  | .ok s => some s
  | _ => none

/-! ### Concrete example documents -/

/-- Base-group children `[Path, Group[Path, Path], Path]` (the shape of
the spec's pre-order numbering example). -/
def exChildren : List Child :=
  [pathChild { D := "M10,10" },
   groupChild ⟨{ Element := "mouth" },
     [pathChild { D := "M20,20" }, pathChild { D := "M30,30" }]⟩,
   pathChild { D := "M40,40" }]

/-- Four canonical stroke-number labels. -/
def exLabels : List Child :=
  [textChild { Transform := "matrix(1 0 0 1 10 10)", Content := "1" },
   textChild { Transform := "matrix(1 0 0 1 20 20)", Content := "2" },
   textChild { Transform := "matrix(1 0 0 1 30 30)", Content := "3" },
   textChild { Transform := "matrix(1 0 0 1 40 40)", Content := "4" }]

/-- A two-group document with base `"kvg:09999"` and the example
base-group children. -/
def exDoc : SVG :=
  { XMLNS := "http://www.w3.org/2000/svg", Width := "109", Height := "109",
    Groups :=
      [⟨{ ID := "kvg:StrokePaths_09999", Style := strokeStyle },
        [groupChild ⟨{ ID := "kvg:09999" }, exChildren⟩]⟩,
       ⟨{ ID := "kvg:StrokeNumbers_09999", Style := labelStyle }, exLabels⟩] }

/-- `exDoc` after `RenumberXML`. -/
def exDocR : SVG := (RenumberXML exDoc).getD exDoc

/-- `exDoc` after `SetBase _ "kvg:09999"`. -/
def exDocSB : SVG := (SetBase exDoc "kvg:09999").toOption.getD exDoc

/-- A document whose first top-level group's first child is a `Path`
(no base group in the intended sense), plus a label group. -/
def exDocPathFirst : SVG :=
  { Groups :=
      [⟨{ ID := "kvg:StrokePaths_00001" }, [pathChild { ID := "p0", D := "M5,5" }]⟩,
       ⟨{ ID := "kvg:StrokeNumbers_00001" },
        [textChild { Transform := "matrix(1 0 0 1 1 1)", Content := "1" }]⟩] }

/-- A well-formed document with only one top-level group (stroke paths
only, no stroke-number group — allowed by the file format, which calls
the numbers optional). -/
def exDocOne : SVG :=
  { XMLNS := "http://www.w3.org/2000/svg", Width := "109", Height := "109",
    Groups :=
      [⟨{ ID := "kvg:StrokePaths_0521d" },
        [groupChild ⟨{ ID := "kvg:0521d" }, [pathChild { D := "M15,15" }]⟩]⟩] }

/-- The empty document. -/
def exDocEmpty : SVG := {}

/-! ### FindMultiElement / multiSearch (source lines 451-496) -/

/-!
`msLoop` is the loop body of `multiSearch` over `gp.Children` (source
lines 461-480), with the group already appended to `pos`.  Faithful
points: the local slice variable `pos` is reassigned by
`pos = append(pos, gPtr)` when a child matches, so the groups of
earlier matches stay on the path used for LATER matches and for later
recursive descents at the same level; a matching child is recorded but
NOT descended into; a non-group child is skipped; the group `gp` itself
is never tested.  (Go's append may share backing arrays, but every
record is taken via an explicit element-wise copy and appends only ever
write at indices at or beyond every older slice's length, so list-value
semantics coincide with the Go behaviour.)
-/

mutual

/-- One iteration of the loop on child `c`: returns the updated
`(pos, locs)` pair. -/
def msStep (pos : List Group) (funky : String) (locs : List (List Group))
    (c : Child) : List Group × List (List Group) :=
  match c with
  | .mk _ ga gc _ ig _ =>
    if ig then
      if ga.Element ≠ funky then
        (pos, msLoop (pos ++ [(⟨ga, gc⟩ : Group)]) funky locs gc)
      else
        (pos ++ [(⟨ga, gc⟩ : Group)], locs ++ [pos ++ [(⟨ga, gc⟩ : Group)]])
    else (pos, locs)

def msLoop (pos : List Group) (funky : String) (locs : List (List Group)) :
    List Child → List (List Group)
  | [] => locs
  | c :: rest =>
    let r := msStep pos funky locs c
    msLoop r.1 funky r.2 rest

end

/-- Source `multiSearch`: push `gp` on the path, then run the loop over
its children (the `debug` printing branch is dead for
`FindMultiElement`, which passes `debug = false`). -/
def multiSearch (pos : List Group) (gp : Group) (funky : String)
    (locs : List (List Group)) : List (List Group) :=
  msLoop (pos ++ [gp]) funky locs gp.Children

/-- Source `FindMultiElement` (lines 490-496): start with empty `pos`
and `locs`. -/
def FindMultiElement (gp : Group) (funky : String) : List (List Group) :=
  multiSearch [] gp funky []

/-- Specification-side list of the outermost matching strict descendants
of a child list, in document order: a matching group child is collected
and not descended into; a non-matching group child is searched
recursively. -/
def outermostMatches (funky : String) : List Child → List Group
  | [] => []
  | .mk _ ga gc _ ig _ :: rest =>
    (if ig then
      (if ga.Element = funky then [(⟨ga, gc⟩ : Group)] else outermostMatches funky gc)
     else []) ++ outermostMatches funky rest

/-- The true root-first ancestor chain of each outermost match, in the
same document order as `outermostMatches`: `anc` is the chain from the
queried root down to the current parent. -/
def outermostChains (funky : String) (anc : List Group) : List Child → List (List Group)
  | [] => []
  | .mk _ ga gc _ ig _ :: rest =>
    (if ig then
      (if ga.Element = funky then [anc ++ [(⟨ga, gc⟩ : Group)]]
       else outermostChains funky (anc ++ [(⟨ga, gc⟩ : Group)]) gc)
     else []) ++ outermostChains funky anc rest

/-- C7 counterexample: for a root whose two children both match, the
chain recorded for the second match is `[root, firstMatch, secondMatch]`
— it contains the previously matched sibling, which is not an ancestor —
so `FindAllByElement` does not return the root-to-match ancestor chain
for every match as the claim states. -/
def exA : Group := ⟨{ ID := "a", Element := "x" }, []⟩

def exB : Group := ⟨{ ID := "b", Element := "x" }, []⟩

def exRoot : Group := ⟨{ ID := "r", Element := "top" }, [groupChild exA, groupChild exB]⟩

/-! ### Filename-grammar utilities (source lines 17-18, 619-642)

`filePartRe` is the Go regular expression
`(?:.*/)?(([0-9a-f]{5})(?:-([A-Za-z][A-Za-z0-9]*))?)\.svg$` and
`FileToParts` returns capture 1 (the id), capture 2 parsed as hex
(the codepoint), and capture 3 (the suffix token, called `extension` in
the source).  `filePartMatch` below implements the matching and capture
semantics of Go's leftmost-first engine for this pattern on character
lists: the pattern is anchored only at the end, so a match exists
exactly when some suffix of the name has the shape
`hex5 ("-" token)? ".svg"`; for the captures, the optional greedy
`(?:.*/)?` is tried first, so the capture starts after the LAST `/`
whose remainder matches, and only if no `/`-split matches does the
engine take the group empty and use the LEFTMOST position whose
remainder matches. -/

/-- The regex class `[0-9a-f]`. -/
def isHexDig (c : Char) : Bool :=
  (('0' ≤ c) && (c ≤ '9')) || (('a' ≤ c) && (c ≤ 'f'))

/-- The regex class `[A-Za-z]`. -/
def isAlphaCh (c : Char) : Bool :=
  (('A' ≤ c) && (c ≤ 'Z')) || (('a' ≤ c) && (c ≤ 'z'))

/-- The regex class `[A-Za-z0-9]`. -/
def isAlnumCh (c : Char) : Bool := isAlphaCh c || (('0' ≤ c) && (c ≤ '9'))

/-- The core of the filename grammar: 5 hex digits, optionally followed
by `-` and a token made of a letter then letters/digits.  This is what
stands between the last path separator (or the match start) and the
`.svg` in `filePartRe`; note the token class is OPEN
(`[A-Za-z][A-Za-z0-9]*`), not the enumerated variant list. -/
def validCore (l : List Char) : Bool :=
  decide (5 ≤ l.length) && (l.take 5).all isHexDig &&
    (match l.drop 5 with
     | [] => true
     | '-' :: t :: ts => isAlphaCh t && ts.all isAlnumCh
     | _ => false)

/-- The fixed file extension `".svg"`. -/
def svgSuffix : List Char := ['.', 's', 'v', 'g']

/-- Does the name end in `".svg"`? -/
def endsSvg (l : List Char) : Bool := decide (l.drop (l.length - 4) = svgSuffix)

/-- The token after the `-`, or `[]` when the core is bare. -/
def tokOf (core : List Char) : List Char :=
  match core.drop 5 with
  | [] => []
  | _ :: t => t

/-- Matching and captures of `filePartRe`: `some (core, token)` when
the name matches, where `core` is capture 1. -/
def filePartMatch (l : List Char) : Option (List Char × List Char) :=
  if endsSvg l then
    let b := l.take (l.length - 4)
    match (List.range b.length).reverse.find?
        (fun j => decide (b.getD j ' ' = '/') && validCore (b.drop (j + 1))) with
    | some j => some (b.drop (j + 1), tokOf (b.drop (j + 1)))
    | none =>
      match (List.range (b.length + 1)).find? (fun i => validCore (b.drop i)) with
      | some i => some (b.drop i, tokOf (b.drop i))
      | none => none
  else none

/-- Numeric value of a hex digit (`strconv.ParseInt` base 16; the
callers only pass strings the regex validated, and on those the parse
cannot fail). -/
def hexDigVal (c : Char) : Nat := if 97 ≤ c.toNat then c.toNat - 87 else c.toNat - 48

/-- Source `HexIDToNum`, on the 5-hex-digit capture. -/
def hexVal (l : List Char) : Nat := l.foldl (fun n c => 16 * n + hexDigVal c) 0

/-- Source `FileToParts` (lines 635-642): on no match, return the zero
values `("", 0, "")`; otherwise captures 1, 2 (as a number) and 3. -/
def FileToParts (fileName : String) : String × Nat × String :=
  match filePartMatch fileName.toList with
  | none => ("", 0, "")
  | some (core, tok) => (String.mk core, hexVal (core.take 5), String.mk tok)

/-- The alternatives of the `Variant` regular expression (source lines
17-18), in source order, duplicates included. -/
def variantTokens : List String :=
  ["Kaisho", "MidFst", "HzLst", "VtLst", "HzFstLeRi", "HzFstRiLe", "TenLst",
   "Hyougai", "Jinmei", "HzFst", "VtFstRiLe", "LeFst", "Vt6", "VtFstRiLe",
   "HzFst", "HzFstVtLst", "MdLst", "VtFst", "Vt4", "Ten3", "DgLst", "Insatsu",
   "MdFst", "MdFst2", "Dg3", "TenFst", "RiLe", "NoDot"]

/-- Substring test used to model `Variant.MatchString`. -/
def containsSub (hay pat : List Char) : Bool :=
  (List.range (hay.length + 1)).any fun i => startsWithL pat (hay.drop i)

/-- `Variant.MatchString s`: does `s` contain `-` followed by one of the
enumerated variant tokens? -/
def VariantMatch (s : String) : Bool :=
  variantTokens.any fun t => containsSub s.toList ('-' :: t.toList)

/-! ### Codec at the XML token level

`MakeXML` (encode) and `ParseKanji` (decode) move between documents and
byte streams through Go's `encoding/xml`.  The byte layer (tokenizer,
indentation fix-up `fixXML`, `Heading` preamble — comments and doctype
that produce no element tokens) is the library boundary; it is modelled
as the identity on a stream of XML tokens, with attribute names taken as
their local names (the `kvg:` namespace handling happens in the
tokenizer).  What the package itself contributes — the struct tags with
their `omitempty` flags driving marshalling, `Child.MarshalXML`
dispatch, and the custom `Group.UnmarshalXML` / `Path.UnmarshalXML`
together with the default unmarshallers for `Text` and `SVG` — is
modelled here token by token. -/

inductive Tok where
  | tstart (name : String) (attrs : List (String × String))
  | tend (name : String)
  | tchar (s : String)
  deriving DecidableEq, Repr

/-- An `omitempty` string attribute: emitted only when non-empty. -/
def optAttr (n v : String) : List (String × String) := if v = "" then [] else [(n, v)]

/-- An `omitempty` flag attribute: emitted as `"true"` only when set. -/
def optBoolAttr (n : String) (b : Bool) : List (String × String) :=
  if b then [(n, "true")] else []

/-- Attributes a `Group` marshals, in struct field order (all
`omitempty`). -/
def encodeGAttrs (a : GAttrs) : List (String × String) :=
  optAttr "id" a.ID ++ optAttr "element" a.Element ++ optAttr "part" a.Part ++
  optBoolAttr "variant" a.Variant ++ optAttr "number" a.Number ++
  optAttr "original" a.Original ++ optBoolAttr "partial" a.Partl ++
  optAttr "tradForm" a.TradForm ++ optAttr "position" a.Position ++
  optAttr "radical" a.Radical ++ optAttr "phon" a.Phon ++
  optAttr "radicalForm" a.RadicalForm ++ optAttr "style" a.Style

/-- Attributes a `Path` marshals: `id` and `d` always (no `omitempty`),
`type` and `class` only when non-empty. -/
def pathAttrs (p : Path) : List (String × String) :=
  [("id", p.ID)] ++ optAttr "type" p.Typ ++ [("d", p.D)] ++ optAttr "class" p.Class

/-- Attributes a `Text` marshals. -/
def textAttrs (t : Text) : List (String × String) :=
  optAttr "transform" t.Transform ++ optAttr "class" t.Class

def encodePathToks (p : Path) : List Tok :=
  [.tstart "path" (pathAttrs p), .tend "path"]

/-- A text element: attributes, then its chardata (omitted when empty),
then the end tag. -/
def encodeTextToks (t : Text) : List Tok :=
  .tstart "text" (textAttrs t) ::
    ((if t.Content = "" then [] else [Tok.tchar t.Content]) ++ [Tok.tend "text"])

mutual

/-- `Child.MarshalXML` dispatch: group first, then text, else path. -/
def encodeChild : Child → List Tok
  | .mk p ga gc t ig it =>
    if ig then Tok.tstart "g" (encodeGAttrs ga) :: (encodeChildren gc ++ [Tok.tend "g"])
    else if it then encodeTextToks t
    else encodePathToks p

def encodeChildren : List Child → List Tok
  | [] => []
  | c :: cs => encodeChild c ++ encodeChildren cs

end

def encodeGroupToks (g : Group) : List Tok :=
  Tok.tstart "g" (encodeGAttrs g.attrs) :: (encodeChildren g.Children ++ [Tok.tend "g"])

/-- Root element attributes: `xmlns`, `width`, `height` always,
`viewBox` when non-empty. -/
def svgAttrs (s : SVG) : List (String × String) :=
  [("xmlns", s.XMLNS), ("width", s.Width), ("height", s.Height)] ++
    optAttr "viewBox" s.ViewBox

def encodeSVGToks (s : SVG) : List Tok :=
  Tok.tstart "svg" (svgAttrs s) ::
    ((s.Groups.map encodeGroupToks).flatten ++ [Tok.tend "svg"])

/-- Source `MakeXML` (lines 160-168): renumber, then marshal.  `none`
models the panics inside `RenumberXML`; the marshaller itself cannot
fail on these structures (the `log.Fatalf` branch for a marshalling
error is dead). -/
def MakeXML (kanjivg : SVG) : Option (List Tok) :=
  (RenumberXML kanjivg).map encodeSVGToks

/-- One case of the attribute switch in `Group.UnmarshalXML` (source
lines 229-265); an attribute outside the allow-list is printed as
`Unhandled` and ignored. -/
def applyGAttr (a : GAttrs) (kv : String × String) : GAttrs :=
  match kv.1 with
  | "element" => { a with Element := kv.2 }
  | "id" => { a with ID := kv.2 }
  | "number" => { a with Number := kv.2 }
  | "original" => { a with Original := kv.2 }
  | "part" => { a with Part := kv.2 }
  | "partial" => if kv.2 = "true" then { a with Partl := true } else a
  | "phon" => { a with Phon := kv.2 }
  | "position" => { a with Position := kv.2 }
  | "radical" => { a with Radical := kv.2 }
  | "radicalForm" => { a with RadicalForm := kv.2 }
  | "style" => { a with Style := kv.2 }
  | "tradForm" => { a with TradForm := kv.2 }
  | "variant" => if kv.2 = "true" then { a with Variant := true } else a
  | _ => a

def decodeGAttrs (attrs : List (String × String)) : GAttrs := attrs.foldl applyGAttr {}

/-- The attribute switch in `Path.UnmarshalXML` (source lines 202-212):
only `d`, `id` and `type` are read — a `class` attribute is DROPPED. -/
def applyPathAttr (p : Path) (kv : String × String) : Path :=
  match kv.1 with
  | "d" => { p with D := kv.2 }
  | "id" => { p with ID := kv.2 }
  | "type" => { p with Typ := kv.2 }
  | _ => p

def decodePathAttrs (attrs : List (String × String)) : Path :=
  attrs.foldl applyPathAttr {}

/-- `Text` has no custom unmarshaller; the default one reads the tagged
attributes `transform` and `class`. -/
def applyTextAttr (t : Text) (kv : String × String) : Text :=
  match kv.1 with
  | "transform" => { t with Transform := kv.2 }
  | "class" => { t with Class := kv.2 }
  | _ => t

def decodeTextAttrs (attrs : List (String × String)) : Text :=
  attrs.foldl applyTextAttr {}

/-- The token loop of `Path.UnmarshalXML` (source lines 213-225): read
and discard tokens until the end element matching the start (same tag
name); a truncated stream is a decode error. -/
def skipToPathEnd : Nat → List Tok → Option (List Tok)
  | 0, _ => none
  | _ + 1, [] => none
  | _ + 1, Tok.tend "path" :: rest => some rest
  | f + 1, _ :: rest => skipToPathEnd f rest

/-- The default unmarshaller consuming a `text` element body: chardata
at depth 0 accumulates into `Content`, nested elements are skipped with
depth counting, the matching end element finishes. -/
def decodeTextLoop : Nat → Nat → Text → List Tok → Option (Text × List Tok)
  | 0, _, _, _ => none
  | _ + 1, _, _, [] => none
  | f + 1, depth, t, tok :: rest =>
    match tok with
    | .tstart _ _ => decodeTextLoop f (depth + 1) t rest
    | .tend n =>
      match depth with
      | 0 => if n = "text" then some (t, rest) else none
      | d + 1 => decodeTextLoop f d t rest
    | .tchar s =>
      decodeTextLoop f depth
        (if depth = 0 then { t with Content := t.Content ++ s } else t) rest

/-- The token loop of `Group.UnmarshalXML` (source lines 266-313):
dispatch on the child tag name (`g` / `path` / `text`); an unknown
start tag is printed and the child dropped WITHOUT skipping its subtree
(`fail = true` only skips the append); an end element with the group's
own tag returns; any other token is ignored; a truncated stream is a
decode error. -/
def decodeGroupChildren : Nat → List Child → List Tok → Option (List Child × List Tok)
  | 0, _, _ => none
  | _ + 1, _, [] => none
  | f + 1, acc, tok :: rest =>
    match tok with
    | .tstart "g" as =>
      match decodeGroupChildren f [] rest with
      | none => none
      | some (gcs, rest1) =>
        decodeGroupChildren f (acc ++ [groupChild ⟨decodeGAttrs as, gcs⟩]) rest1
    | .tstart "path" as =>
      match skipToPathEnd f rest with
      | none => none
      | some rest1 => decodeGroupChildren f (acc ++ [pathChild (decodePathAttrs as)]) rest1
    | .tstart "text" as =>
      match decodeTextLoop f 0 (decodeTextAttrs as) rest with
      | none => none
      | some (t, rest1) => decodeGroupChildren f (acc ++ [textChild t]) rest1
    | .tstart _ _ => decodeGroupChildren f acc rest
    | .tend "g" => some (acc, rest)
    | .tend _ => decodeGroupChildren f acc rest
    | .tchar _ => decodeGroupChildren f acc rest

/-- The default unmarshaller skipping an unknown element under the root
(consume the subtree with depth counting). -/
def skipEl : Nat → Nat → List Tok → Option (List Tok)
  | 0, _, _ => none
  | _ + 1, _, [] => none
  | f + 1, depth, tok :: rest =>
    match tok with
    | .tstart _ _ => skipEl f (depth + 1) rest
    | .tend _ =>
      match depth with
      | 0 => some rest
      | d + 1 => skipEl f d rest
    | .tchar _ => skipEl f depth rest

/-- Root attributes read by the default `SVG` unmarshaller. -/
def applySVGAttr (s : SVG) (kv : String × String) : SVG :=
  match kv.1 with
  | "xmlns" => { s with XMLNS := kv.2 }
  | "width" => { s with Width := kv.2 }
  | "height" => { s with Height := kv.2 }
  | "viewBox" => { s with ViewBox := kv.2 }
  | _ => s

/-- The default unmarshaller collecting the root's `g` children (each
via the custom `Group.UnmarshalXML`) and skipping everything else. -/
def decodeSVGGroups : Nat → List Group → List Tok → Option (List Group)
  | 0, _, _ => none
  | _ + 1, _, [] => none
  | f + 1, acc, tok :: rest =>
    match tok with
    | .tstart "g" as =>
      match decodeGroupChildren f [] rest with
      | none => none
      | some (cs, rest1) => decodeSVGGroups f (acc ++ [⟨decodeGAttrs as, cs⟩]) rest1
    | .tstart _ _ =>
      match skipEl f 0 rest with
      | none => none
      | some rest1 => decodeSVGGroups f acc rest1
    | .tend "svg" => some acc
    | .tend _ => decodeSVGGroups f acc rest
    | .tchar _ => decodeSVGGroups f acc rest

/-- Source `ParseKanji` (lines 318-324): `xml.Unmarshal` into an `SVG`.
The tokenizer has already skipped the heading comments/doctype, so the
stream must open with the `svg` root element; `none` is the
`DecodeError` returned to the caller. -/
def ParseKanji (toks : List Tok) : Option SVG :=
  match toks with
  | Tok.tstart "svg" as :: rest =>
    match decodeSVGGroups (rest.length + 1) [] rest with
    | some gs => some { (as.foldl applySVGAttr {}) with Groups := gs }
    | none => none
  | _ => none

/-! ### Well-formedness of decoded documents -/

mutual

/-- Well-formedness of a decoded child: the tag booleans form a valid
union discriminant and the inactive payload slots hold Go zero values;
`Path.Class` is empty because `Path.UnmarshalXML` never sets it. -/
def wfChild : Child → Bool
  | .mk p ga gc t ig it =>
    if ig then
      !it && decide (p = ({} : Path)) && decide (t = ({} : Text)) && wfChildren gc
    else if it then
      decide (p = ({} : Path)) && decide (ga = ({} : GAttrs)) && gc.isEmpty
    else
      decide (ga = ({} : GAttrs)) && gc.isEmpty && decide (t = ({} : Text)) &&
        decide (p.Class = "")

def wfChildren : List Child → Bool
  | [] => true
  | c :: cs => wfChild c && wfChildren cs

end

/-- Every top-level group's subtree is well-formed. -/
def wfSVG (svg : SVG) : Bool := svg.Groups.all fun g => wfChildren g.Children

mutual

/-- No text-tagged children anywhere in a child's subtree. -/
def noTextChild : Child → Bool
  | .mk _ _ gc _ ig it => if ig then noTextChildren gc else !it

def noTextChildren : List Child → Bool
  | [] => true
  | c :: cs => noTextChild c && noTextChildren cs

end

/-- The label children are all texts already holding their 1-based
ordinal as content, counting from `k`. -/
def labelsFrom : Nat → List Child → Bool
  | _, [] => true
  | k, .mk _ _ _ t _ it :: cs =>
    it && decide (t.Content = toString k) && labelsFrom (k + 1) cs

/-- A document as decoded from canonical input: exactly two top-level
groups, the first holding exactly the base group (a group child) whose
subtree has no text children, everything well-formed, and the second
group's children canonical stroke-number labels. -/
def Canonical (svg : SVG) : Bool :=
  match svg.Groups with
  | [g0, g1] =>
    (match g0.Children with
     | [c0] => c0.IsGroup && noTextChildren c0.gchildren
     | _ => false) && wfSVG svg && labelsFrom 1 g1.Children
  | _ => false

/-- Erase exactly the fields the round-trip claim's structural equality
ignores: group identifiers, group styles and path identifiers,
everywhere. -/
def eraseISSVG (svg : SVG) : SVG := { svg with Groups := svg.Groups.map eraseGroup }

/-- A descendant group carrying a non-empty style attribute. -/
def exInner : Group :=
  ⟨{ ID := "kvg:07777-g9", Element := "comp", Style := "fill:red" },
   [pathChild { D := "M1,1" }]⟩

/-- A canonical-shaped document whose base subtree contains `exInner`
with its `style="fill:red"`. -/
def exDocStyled : SVG :=
  { Groups :=
      [⟨{ ID := "kvg:StrokePaths_07777" },
        [groupChild ⟨{ ID := "kvg:07777" }, [groupChild exInner]⟩]⟩,
       ⟨{ ID := "kvg:StrokeNumbers_07777" }, [textChild { Content := "1" }]⟩] }

/-- Style attribute of the first descendant group inside the base
group. -/
def firstDescendantStyle (svg : SVG) : Option String :=
  match svg.Groups with
  | g0 :: _ =>
    match g0.Children with
    | c0 :: _ =>
      match c0.gchildren with
      | d0 :: _ => some d0.gattrs.Style
      | [] => none
    | [] => none
  | [] => none

/-- Style attribute of the first child in a list. -/
def firstStyleIn : List Child → Option String
  | c :: _ => some c.gattrs.Style
  | [] => none

/-- The chain recorded for each match contains the true root-first
ancestor chain of that match, in order (as a sublist): the working path
only ever grows by appending, so every ancestor pushed on the way down
is still present, in order, when the match is recorded. -/
theorem msLoop_chains (pos anc : List Group) (funky : String)
    (locs : List (List Group)) (cs : List Child)
    (hanc : List.Sublist anc pos) :
    ∃ L, msLoop pos funky locs cs = locs ++ L ∧
      List.Forall₂ (fun spec chain => List.Sublist spec chain)
        (outermostChains funky anc cs) L := by
  match cs with
  | [] =>
    refine ⟨[], by simp [msLoop], ?_⟩
    simp only [outermostChains]
    exact List.Forall₂.nil
  | .mk p ga gc t ig it :: rest =>
    match hig : ig with
    | false =>
      obtain ⟨L, h1, h2⟩ := msLoop_chains pos anc funky locs rest hanc
      exact ⟨L, by simpa [msLoop, msStep] using h1,
        by simpa [outermostChains] using h2⟩
    | true =>
      by_cases hel : ga.Element = funky
      · obtain ⟨L2, h1, h2⟩ :=
          msLoop_chains (pos ++ [(⟨ga, gc⟩ : Group)]) anc funky
            (locs ++ [pos ++ [(⟨ga, gc⟩ : Group)]]) rest
            (hanc.trans (List.sublist_append_left pos [(⟨ga, gc⟩ : Group)]))
        refine ⟨(pos ++ [(⟨ga, gc⟩ : Group)]) :: L2, ?_, ?_⟩
        · simp only [msLoop, msStep, hel, ne_eq, not_true_eq_false, if_false,
            if_true, h1]
          simp
        · simp only [outermostChains, hel, if_true, List.singleton_append]
          exact List.Forall₂.cons (hanc.append (List.Sublist.refl _)) h2
      · obtain ⟨L1, h1, h2⟩ :=
          msLoop_chains (pos ++ [(⟨ga, gc⟩ : Group)]) (anc ++ [(⟨ga, gc⟩ : Group)])
            funky locs gc (hanc.append (List.Sublist.refl _))
        obtain ⟨L2, h4, h5⟩ := msLoop_chains pos anc funky (locs ++ L1) rest hanc
        refine ⟨L1 ++ L2, ?_, ?_⟩
        · simp only [msLoop, msStep, hel, ne_eq, not_false_eq_true, if_true, h1, h4]
          simp
        · simp only [outermostChains, hel, if_false]
          exact List.rel_append h2 h5

mutual

/-- Exact characterisation of the walk on one child, for arbitrary
starting counters: the group ids assigned inside `c` are the consecutive
ordinals `nG+1, nG+2, ...` in document order, the path ids are
`nP+1, nP+2, ...`, and the counters come back advanced by the respective
visit counts. -/
theorem renumberChild_ids (base : String) (c : Child) (nP nG : Nat) :
    childGroupIds (renumberChild base c nP nG).1 =
      (List.range' (nG + 1) (childGCount c)).map (fun k => base ++ "-g" ++ toString k) ∧
    childPathIds (renumberChild base c nP nG).1 =
      (List.range' (nP + 1) (childPCount c)).map (fun k => base ++ "-s" ++ toString k) ∧
    (renumberChild base c nP nG).2.1 = nP + childPCount c ∧
    (renumberChild base c nP nG).2.2 = nG + childGCount c := by
  obtain ⟨p, ga, gc, t, ig, it⟩ := c
  cases ig with
  | true =>
    obtain ⟨ih1, ih2, ih3, ih4⟩ := renumberChildren_ids base gc nP (nG + 1)
    simp only [renumberChild, if_true, childGroupIds, childPathIds, childGCount,
      childPCount]
    rw [ih1, ih2, ih3, ih4]
    refine ⟨?_, rfl, rfl, by omega⟩
    rw [Nat.add_comm 1 (childrenGCount gc), List.range'_succ]
    rfl
  | false =>
    simp only [renumberChild, Bool.false_eq_true, if_false, childGroupIds,
      childPathIds, childGCount, childPCount]
    exact ⟨by simp, by simp [List.range'_one], by simp, by simp⟩

theorem renumberChildren_ids (base : String) (cs : List Child) (nP nG : Nat) :
    childrenGroupIds (renumberChildren base cs nP nG).1 =
      (List.range' (nG + 1) (childrenGCount cs)).map (fun k => base ++ "-g" ++ toString k) ∧
    childrenPathIds (renumberChildren base cs nP nG).1 =
      (List.range' (nP + 1) (childrenPCount cs)).map (fun k => base ++ "-s" ++ toString k) ∧
    (renumberChildren base cs nP nG).2.1 = nP + childrenPCount cs ∧
    (renumberChildren base cs nP nG).2.2 = nG + childrenGCount cs := by
  match cs with
  | [] => simp [renumberChildren, childrenGroupIds, childrenPathIds, childrenGCount,
      childrenPCount]
  | c :: rest =>
    obtain ⟨ihc1, ihc2, ihc3, ihc4⟩ := renumberChild_ids base c nP nG
    obtain ⟨ihr1, ihr2, ihr3, ihr4⟩ :=
      renumberChildren_ids base rest (nP + childPCount c) (nG + childGCount c)
    simp only [renumberChildren, childrenGroupIds, childrenPathIds, childrenGCount,
      childrenPCount]
    rw [ihc3, ihc4, ihc1, ihc2, ihr1, ihr2, ihr3, ihr4]
    refine ⟨?_, ?_, by omega, by omega⟩
    · rw [← List.map_append]
      have h1 : nG + childGCount c + 1 = (nG + 1) + childGCount c := by omega
      rw [h1, List.range'_append_1]
      rw [Nat.add_comm (childrenGCount rest) (childGCount c)]
    · rw [← List.map_append]
      have h1 : nP + childPCount c + 1 = (nP + 1) + childPCount c := by omega
      rw [h1, List.range'_append_1]
      rw [Nat.add_comm (childrenPCount rest) (childPCount c)]

end

mutual

/-- Running the walk again over an already renumbered child, with the
same base and the same starting counters, reproduces the same result. -/
theorem renumberChild_idem (base : String) (c : Child) (nP nG : Nat) :
    renumberChild base (renumberChild base c nP nG).1 nP nG =
      renumberChild base c nP nG := by
  obtain ⟨p, ga, gc, t, ig, it⟩ := c
  cases ig with
  | true =>
    have ih := renumberChildren_idem base gc nP (nG + 1)
    simp only [renumberChild, if_true]
    rw [ih]
  | false =>
    simp only [renumberChild, Bool.false_eq_true, if_false]

theorem renumberChildren_idem (base : String) (cs : List Child) (nP nG : Nat) :
    renumberChildren base (renumberChildren base cs nP nG).1 nP nG =
      renumberChildren base cs nP nG := by
  match cs with
  | [] => rfl
  | c :: rest =>
    have ihc := renumberChild_idem base c nP nG
    have ihr :=
      renumberChildren_idem base rest (renumberChild base c nP nG).2.1
        (renumberChild base c nP nG).2.2
    simp only [renumberChildren]
    rw [ihc, ihr]

end

/-- Relabelling the label children twice from the same start ordinal is
the same as relabelling once. -/
theorem relabelFrom_idem (k : Nat) (cs : List Child) :
    relabelFrom k (relabelFrom k cs) = relabelFrom k cs := by
  induction cs generalizing k with
  | nil => rfl
  | cons c rest ih =>
    obtain ⟨p, ga, gc, t, ig, it⟩ := c
    cases it <;> simp [relabelFrom, ih]

/-- Closed form of `RenumberXML` on a document of the shape every
canonical file has: at least two top-level groups and a nonempty first
group. -/
theorem RenumberXML_eq (svg : SVG) (g0 g1 : Group) (grest : List Group)
    (c0 : Child) (crest : List Child)
    (h1 : svg.Groups = g0 :: g1 :: grest) (h2 : g0.Children = c0 :: crest) :
    RenumberXML svg = some { svg with Groups :=
      { attrs := { g0.attrs with Style := strokeStyle },
        Children :=
          Child.mk c0.path c0.gattrs
            (renumberChildren c0.gattrs.ID c0.gchildren 0 0).1 c0.text
            c0.IsGroup c0.IsText :: crest } ::
      { attrs := { g1.attrs with Style := labelStyle },
        Children := relabelFrom 1 g1.Children } :: grest } := by
  obtain ⟨xmlns, w, h, vb, gs⟩ := svg
  simp only at h1
  subst h1
  obtain ⟨a0, ch0⟩ := g0
  simp only at h2
  subst h2
  simp [RenumberXML, RenumberLabels, SetStyle, removeChildStyles, Option.bind]

/-- Inversion for `RenumberXML`: a successful run forces the document
shape and determines the output. -/
theorem RenumberXML_inv (svg e : SVG) (h : RenumberXML svg = some e) :
    ∃ g0 g1 grest c0 crest,
      svg.Groups = g0 :: g1 :: grest ∧ g0.Children = c0 :: crest ∧
      e = { svg with Groups :=
        { attrs := { g0.attrs with Style := strokeStyle },
          Children :=
            Child.mk c0.path c0.gattrs
              (renumberChildren c0.gattrs.ID c0.gchildren 0 0).1 c0.text
              c0.IsGroup c0.IsText :: crest } ::
        { attrs := { g1.attrs with Style := labelStyle },
          Children := relabelFrom 1 g1.Children } :: grest } := by
  match hg : svg.Groups with
  | [] => rw [RenumberXML, hg] at h; exact absurd h (by simp)
  | g0 :: grest =>
    match hc : g0.Children with
    | [] =>
      rw [RenumberXML] at h
      rw [hg] at h
      simp only [hc] at h
      exact absurd h (by simp)
    | c0 :: crest =>
      match grest with
      | [] =>
        rw [RenumberXML] at h
        rw [hg] at h
        simp only [hc] at h
        simp [RenumberLabels, Option.bind] at h
      | g1 :: grest2 =>
        refine ⟨g0, g1, grest2, c0, crest, rfl, hc, ?_⟩
        have := RenumberXML_eq svg g0 g1 grest2 c0 crest hg hc
        rw [this] at h
        exact (Option.some.injEq _ _ ▸ h).symm

mutual

/-- The walk's visit counts depend only on the shape. -/
theorem childGCount_shape (c : Child) :
    childGCount c = shapeGCount (childShape c) ∧
    childPCount c = shapePCount (childShape c) := by
  obtain ⟨p, ga, gc, t, ig, it⟩ := c
  obtain ⟨h1, h2⟩ := childrenGCount_shape gc
  cases ig <;>
    simp [childGCount, childPCount, childShape, shapeGCount, shapePCount, h1, h2]

theorem childrenGCount_shape (cs : List Child) :
    childrenGCount cs = shapesGCount (childrenShape cs) ∧
    childrenPCount cs = shapesPCount (childrenShape cs) := by
  match cs with
  | [] => simp [childrenGCount, childrenPCount, childrenShape, shapesGCount, shapesPCount]
  | c :: rest =>
    obtain ⟨h1, h2⟩ := childGCount_shape c
    obtain ⟨h3, h4⟩ := childrenGCount_shape rest
    simp [childrenGCount, childrenPCount, childrenShape, shapesGCount, shapesPCount,
      h1, h2, h3, h4]

end

mutual

/-- The walk changes nothing that `eraseChild` keeps. -/
theorem eraseChild_renumber (base : String) (c : Child) (nP nG : Nat) :
    eraseChild (renumberChild base c nP nG).1 = eraseChild c := by
  obtain ⟨p, ga, gc, t, ig, it⟩ := c
  cases ig with
  | true =>
    have ih := eraseChildren_renumber base gc nP (nG + 1)
    simp [renumberChild, eraseChild, ih]
  | false => simp [renumberChild, eraseChild]

theorem eraseChildren_renumber (base : String) (cs : List Child) (nP nG : Nat) :
    eraseChildren (renumberChildren base cs nP nG).1 = eraseChildren cs := by
  match cs with
  | [] => rfl
  | c :: rest =>
    have ihc := eraseChild_renumber base c nP nG
    have ihr :=
      eraseChildren_renumber base rest (renumberChild base c nP nG).2.1
        (renumberChild base c nP nG).2.2
    simp [renumberChildren, eraseChildren, ihc, ihr]

end

/-- Relabelling changes nothing that label-erasure keeps. -/
theorem eraseLabel_relabel (k : Nat) (cs : List Child) :
    (eraseChildren (relabelFrom k cs)).map eraseLabel =
      (eraseChildren cs).map eraseLabel := by
  induction cs generalizing k with
  | nil => rfl
  | cons c rest ih =>
    obtain ⟨p, ga, gc, t, ig, it⟩ := c
    cases it <;> simp [relabelFrom, eraseChildren, eraseChild, eraseLabel, ih]

/-- Frame property of `SetBase`: a successful run changes only fields
`eraseMutSVG` clears. -/
theorem SetBase_frame (kvg : SVG) (base : String) (out : SVG)
    (h : SetBase kvg base = .ok out) : eraseMutSVG out = eraseMutSVG kvg := by
  unfold SetBase at h
  split at h
  · exact absurd h (by simp)
  split at h
  · exact absurd h (by simp)
  split at h
  · exact absurd h (by simp)
  next g0 grest heqg =>
  split at h
  · exact absurd h (by simp)
  next c0 crest heqc =>
  obtain ⟨cp, cga, cgc, ct, cig, cit⟩ := c0
  split at h
  next heqr =>
    simp only [SBResult.ok.injEq] at h
    subst h
    simp only [eraseMutSVG, heqg, List.map]
    simp [eraseGroup, heqc, eraseChildren, eraseChild, Child.path, Child.gattrs,
      Child.gchildren, Child.text, Child.IsGroup, Child.IsText,
      eraseChildren_renumber]
  next g1 grest2 heqr =>
    simp only [SBResult.ok.injEq] at h
    subst h
    simp only [eraseMutSVG, heqg, List.map]
    simp [eraseGroup, heqc, eraseChildren, eraseChild, Child.path, Child.gattrs,
      Child.gchildren, Child.text, Child.IsGroup, Child.IsText,
      eraseChildren_renumber]

/-- Frame property of `RenumberXML`: a successful run changes only
fields `eraseMutSVG` clears. -/
theorem RenumberXML_frame (svg out : SVG) (h : RenumberXML svg = some out) :
    eraseMutSVG out = eraseMutSVG svg := by
  obtain ⟨g0, g1, grest, c0, crest, hg, hc, he⟩ := RenumberXML_inv svg out h
  subst he
  obtain ⟨cp, cga, cgc, ct, cig, cit⟩ := c0
  simp only [eraseMutSVG, hg, List.map]
  simp [eraseGroup, hc, eraseChildren, eraseChild, Child.path, Child.gattrs,
    Child.gchildren, Child.text, Child.IsGroup, Child.IsText,
    eraseChildren_renumber, eraseLabel_relabel]

theorem renumberChildren_idem_fst (base : String) (cs : List Child) (nP nG : Nat) :
    (renumberChildren base (renumberChildren base cs nP nG).1 nP nG).1 =
      (renumberChildren base cs nP nG).1 :=
  congrArg Prod.fst (renumberChildren_idem base cs nP nG)

/-- `RenumberXML` is idempotent: running it on its own output is a
no-op. -/
theorem RenumberXML_idem (d e : SVG) (h : RenumberXML d = some e) :
    RenumberXML e = some e := by
  obtain ⟨g0, g1, grest, c0, crest, hg, hc, he⟩ := RenumberXML_inv d e h
  subst he
  obtain ⟨cp, cga, cgc, ct, cig, cit⟩ := c0
  rw [RenumberXML_eq _
    { attrs := { g0.attrs with Style := strokeStyle },
      Children :=
        Child.mk cp cga (renumberChildren cga.ID cgc 0 0).1 ct cig cit :: crest }
    { attrs := { g1.attrs with Style := labelStyle },
      Children := relabelFrom 1 g1.Children } grest
    (Child.mk cp cga (renumberChildren cga.ID cgc 0 0).1 ct cig cit) crest
    rfl rfl]
  simp [Child.path, Child.gattrs, Child.gchildren, Child.text, Child.IsGroup,
    Child.IsText, renumberChildren_idem_fst, relabelFrom_idem]

/-- After a successful `RenumberXML`, the assigned identifiers are the
explicit function of the input's base identifier and base-subtree shape
only. -/
theorem RenumberXML_walkIds (d e : SVG) (h : RenumberXML d = some e)
    (b : String) (sh : List CShape) (hb : svgBaseId d = some b)
    (hsh : svgBaseShape d = some sh) :
    svgWalkIds e =
      some ((List.range' 1 (shapesGCount sh)).map (fun k => b ++ "-g" ++ toString k),
        (List.range' 1 (shapesPCount sh)).map (fun k => b ++ "-s" ++ toString k)) := by
  obtain ⟨g0, g1, grest, c0, crest, hg, hc, he⟩ := RenumberXML_inv d e h
  subst he
  obtain ⟨cp, cga, cgc, ct, cig, cit⟩ := c0
  simp only [svgBaseId, BaseGroup, svgBaseShape, hg, hc, Option.map_some,
    Option.map_some', Option.some.injEq, Child.group, Child.gattrs,
    Child.gchildren] at hb hsh
  subst hb
  subst hsh
  obtain ⟨ihg, ihp, _, _⟩ := renumberChildren_ids cga.ID cgc 0 0
  obtain ⟨hcg, hcp⟩ := childrenGCount_shape cgc
  simp only [svgWalkIds, Child.gattrs, Child.gchildren]
  simp [ihg, ihp, ← hcg, ← hcp]

/-- When `BaseGroup` does not panic. -/
theorem BaseGroup_none_iff (kvg : SVG) :
    BaseGroup kvg = none ↔
      kvg.Groups = [] ∨ ∃ g0 gs, kvg.Groups = g0 :: gs ∧ g0.Children = [] := by
  match hg : kvg.Groups with
  | [] => simp [BaseGroup, hg]
  | g0 :: gs =>
    match hc : g0.Children with
    | [] =>
      simp only [BaseGroup, hg, hc]
      constructor
      · intro _
        exact Or.inr ⟨g0, gs, rfl, hc⟩
      · intro _
        trivial
    | c0 :: cs =>
      simp only [BaseGroup, hg, hc]
      constructor
      · intro hcontra
        exact absurd hcontra (by simp)
      · rintro (habs | ⟨g0', gs', heq, hch⟩)
        · exact absurd habs (by simp)
        · obtain ⟨rfl, rfl⟩ : g0' = g0 ∧ gs' = gs := by
            constructor <;> [exact (List.cons.injEq _ _ _ _ ▸ heq).1.symm;
              exact (List.cons.injEq _ _ _ _ ▸ heq).2.symm]
          rw [hc] at hch
          exact absurd hch (by simp)

/-! ### Claim theorems -/

/-- C1: the renumbering walk performs one depth-first document-order
traversal with two counters shared across the whole subtree, both
starting at 0: the group ids assigned, read in document order, are
exactly `base-g1, base-g2, ...` and the path ids exactly
`base-s1, base-s2, ...` (ids indexed by 1-based visit ordinal); and on
the example document with base `"kvg:09999"` and base-group children
`[Path, Group[Path, Path], Path]`, `SetBase` gives the nested group
`kvg:09999-g1` and the four paths `-s1 ... -s4` in document order. -/
theorem c1_renumber_walk_ordinals :
    (∀ (base : String) (cs : List Child),
      childrenGroupIds (renumberChildren base cs 0 0).1 =
        (List.range' 1 (childrenGCount cs)).map (fun k => base ++ "-g" ++ toString k) ∧
      childrenPathIds (renumberChildren base cs 0 0).1 =
        (List.range' 1 (childrenPCount cs)).map (fun k => base ++ "-s" ++ toString k)) ∧
    (SetBase exDoc "kvg:09999").toOption.bind svgWalkIds =
      some (["kvg:09999-g1"],
        ["kvg:09999-s1", "kvg:09999-s2", "kvg:09999-s3", "kvg:09999-s4"]) := by
  constructor
  · intro base cs
    obtain ⟨h1, h2, _, _⟩ := renumberChildren_ids base cs 0 0
    exact ⟨by simpa using h1, by simpa using h2⟩
  · rfl

/-- C5 counterexample: for a base string without the `"kvg:"` prefix,
`SetBase` does not return a `ValidationError` result to the caller — it
calls `log.Fatalf`, which terminates the calling process (modelled by
the `fatal` outcome; the Go `SetBase` has no error return value at
all). -/
theorem c5_counterexample_setbase_fatal :
    SetBase exDoc "abcd" =
      SBResult.fatal "Base name abcd does not start with kvg:" ∧
    (SetBase exDoc "abcd").isAbort = true := ⟨rfl, rfl⟩

/-- C5 (amended): for every document and every base string that does
not begin with `"kvg:"`, `SetBase` aborts the calling process — via
`log.Fatalf` when the string is at least 4 characters long, via a slice
bounds panic otherwise — instead of returning an error value. -/
theorem c5_amended_setbase_aborts (kvg : SVG) (base : String)
    (h : base.take 4 ≠ "kvg:") : (SetBase kvg base).isAbort = true := by
  by_cases hlen : base.length < 4
  · simp [SetBase, hlen, SBResult.isAbort]
  · simp [SetBase, hlen, h, SBResult.isAbort]

theorem c5_amended_setbase_aborts_witness :
    ("XYZ:00001".take 4 ≠ "kvg:") ∧ (SetBase exDoc "XYZ:00001").isAbort = true :=
  ⟨by decide, c5_amended_setbase_aborts exDoc "XYZ:00001" (by decide)⟩

/-- C6: `RenumberXML` (the `Renumber` operation) is idempotent — run on
its own output it reproduces that output exactly, identifiers and style
attributes included — and the identifiers assigned by the walk are a
pure function of the base identifier together with the base subtree's
shape alone. -/
theorem c6_renumber_idempotent_pure :
    (∀ d e, RenumberXML d = some e → RenumberXML e = some e) ∧
    (∀ d1 d2 e1 e2 b sh, RenumberXML d1 = some e1 → RenumberXML d2 = some e2 →
      svgBaseId d1 = some b → svgBaseShape d1 = some sh →
      svgBaseId d2 = some b → svgBaseShape d2 = some sh →
      svgWalkIds e1 = svgWalkIds e2) := by
  refine ⟨RenumberXML_idem, ?_⟩
  intro d1 d2 e1 e2 b sh h1 h2 hb1 hs1 hb2 hs2
  rw [RenumberXML_walkIds d1 e1 h1 b sh hb1 hs1,
    RenumberXML_walkIds d2 e2 h2 b sh hb2 hs2]

theorem c6_renumber_idempotent_pure_witness :
    RenumberXML exDoc = some exDocR ∧ RenumberXML exDocR = some exDocR ∧
    svgWalkIds exDocR = svgWalkIds exDocR :=
  ⟨rfl, c6_renumber_idempotent_pure.1 exDoc exDocR rfl,
    c6_renumber_idempotent_pure.2 exDoc exDoc exDocR exDocR "kvg:09999"
      (childrenShape exChildren) rfl rfl rfl rfl rfl rfl⟩

/-- C9: the renumbering operations (`SetBase` and `RenumberXML`) write
only group identifiers, path identifiers, group style attributes and the
text contents of the second top-level group's text children: erasing
exactly those fields from input and output gives identical documents, so
the number, order and union tags of all children and every other
attribute are unchanged. -/
theorem c9_renumber_frame :
    (∀ (kvg : SVG) (base : String) (out : SVG),
      SetBase kvg base = .ok out → eraseMutSVG out = eraseMutSVG kvg) ∧
    (∀ svg out, RenumberXML svg = some out → eraseMutSVG out = eraseMutSVG svg) :=
  ⟨SetBase_frame, RenumberXML_frame⟩

theorem c9_renumber_frame_witness :
    eraseMutSVG exDocSB = eraseMutSVG exDoc ∧ eraseMutSVG exDocR = eraseMutSVG exDoc :=
  ⟨c9_renumber_frame.1 exDoc "kvg:09999" exDocSB rfl,
    c9_renumber_frame.2 exDoc exDocR rfl⟩

/-- C10: `BaseGroup` returns the `.Group` field of the first top-level
group's first child without checking that child's tag: whenever the
first top-level group has a first child it answers with that child's
group slot (for a path-first document this is the zero-value group, and
`SetBase`, `RenumberXML` and `Base` then run on it without reporting any
error), and it panics exactly when the document has no top-level group
or the first top-level group has no children. -/
theorem c10_basegroup_unchecked :
    (∀ (kvg : SVG) (g0 : Group) (gs : List Group) (c0 : Child) (cs : List Child),
      kvg.Groups = g0 :: gs → g0.Children = c0 :: cs →
      BaseGroup kvg = some c0.group) ∧
    (∀ kvg : SVG, BaseGroup kvg = none ↔
      kvg.Groups = [] ∨ ∃ g0 gs, kvg.Groups = g0 :: gs ∧ g0.Children = []) ∧
    (BaseGroup exDocPathFirst = some ⟨{}, []⟩ ∧
     (SetBase exDocPathFirst "kvg:00001").isOk = true ∧
     (RenumberXML exDocPathFirst).isSome = true ∧
     Base exDocPathFirst = some ("", "")) := by
  refine ⟨?_, BaseGroup_none_iff, rfl, rfl, rfl, rfl⟩
  intro kvg g0 gs c0 cs h1 h2
  rw [BaseGroup, h1]
  simp only [h2]

/-- Characterisation of the `multiSearch` loop: it appends to `locs`
one chain per outermost match in document order; each appended chain
ends with its match and starts with the head of the incoming path. -/
theorem msLoop_spec (pos : List Group) (funky : String)
    (locs : List (List Group)) (cs : List Child) (hne : pos ≠ []) :
    ∃ L, msLoop pos funky locs cs = locs ++ L ∧
      L.map (fun l => l.getLast?) = (outermostMatches funky cs).map some ∧
      ∀ l ∈ L, l.head? = pos.head? := by
  match cs with
  | [] => exact ⟨[], by simp [msLoop], by simp [outermostMatches], by simp⟩
  | .mk p ga gc t ig it :: rest =>
    match hig : ig with
    | false =>
      obtain ⟨L, h1, h2, h3⟩ := msLoop_spec pos funky locs rest hne
      exact ⟨L, by simpa [msLoop, msStep] using h1, by simpa [outermostMatches] using h2, h3⟩
    | true =>
      by_cases hel : ga.Element = funky
      · obtain ⟨L2, h1, h2, h3⟩ :=
          msLoop_spec (pos ++ [(⟨ga, gc⟩ : Group)]) funky
            (locs ++ [pos ++ [(⟨ga, gc⟩ : Group)]]) rest (by simp)
        refine ⟨(pos ++ [(⟨ga, gc⟩ : Group)]) :: L2, ?_, ?_, ?_⟩
        · simp only [msLoop, msStep, hel, ne_eq, not_true_eq_false, if_false,
            if_true, h1]
          simp
        · simp only [List.map_cons, outermostMatches, hel, if_pos, if_true, h2]
          simp [List.getLast?_concat]
        · intro l hl
          rcases List.mem_cons.mp hl with rfl | hl2
          · obtain ⟨p0, ptl, hpos⟩ := List.exists_cons_of_ne_nil hne
            simp [hpos]
          · rw [h3 l hl2]
            obtain ⟨p0, ptl, hpos⟩ := List.exists_cons_of_ne_nil hne
            simp [hpos]
      · obtain ⟨L1, h1, h2, h3⟩ :=
          msLoop_spec (pos ++ [(⟨ga, gc⟩ : Group)]) funky locs gc (by simp)
        obtain ⟨L2, h4, h5, h6⟩ := msLoop_spec pos funky (locs ++ L1) rest hne
        refine ⟨L1 ++ L2, ?_, ?_, ?_⟩
        · simp only [msLoop, msStep, hel, ne_eq, not_false_eq_true, if_true, h1, h4]
          simp
        · simp only [outermostMatches, hel, if_neg, if_true, List.map_append, h2, h5]
          simp [hel]
        · intro l hl
          rcases List.mem_append.mp hl with hl1 | hl2
          · rw [h3 l hl1]
            obtain ⟨p0, ptl, hpos⟩ := List.exists_cons_of_ne_nil hne
            simp [hpos]
          · exact h6 l hl2

theorem c7_counterexample_chain_not_ancestors :
    (FindMultiElement exRoot "x").map (List.map (fun g => g.attrs.ID)) =
      [["r", "a"], ["r", "a", "b"]] ∧
    (["r", "a", "b"] : List String) ≠ ["r", "b"] := ⟨rfl, by decide⟩

/-- C7 (amended): `FindMultiElement g name` collects, in document
order, exactly the outermost matching groups strictly below `g` (the
queried root itself is never tested, and a matched group's own subtree
is not searched); each returned chain begins at the queried root and
ends at its match, but a chain may also contain previously matched
groups, so it is the traversal path actually used rather than the
ancestor chain. -/
theorem c7_amended_findmulti (gp : Group) (funky : String) :
    (FindMultiElement gp funky).map (fun l => l.getLast?) =
      (outermostMatches funky gp.Children).map some ∧
    (∀ l ∈ FindMultiElement gp funky, l.head? = some gp) ∧
    List.Forall₂ (fun spec chain => List.Sublist spec chain)
      (outermostChains funky [gp] gp.Children) (FindMultiElement gp funky) := by
  obtain ⟨L, hEq, hLast, hHead⟩ := msLoop_spec [gp] funky [] gp.Children (by simp)
  obtain ⟨L2, hEq2, hFa⟩ :=
    msLoop_chains [gp] [gp] funky [] gp.Children (List.Sublist.refl _)
  have hF : FindMultiElement gp funky = L := by
    rw [FindMultiElement, multiSearch]
    simpa using hEq
  have hF2 : FindMultiElement gp funky = L2 := by
    rw [FindMultiElement, multiSearch]
    simpa using hEq2
  rw [hF]
  refine ⟨hLast, fun l hl => hHead l hl, ?_⟩
  rw [hF.symm.trans hF2]
  exact hFa

theorem c7_amended_findmulti_witness :
    (FindMultiElement exRoot "x").map (fun l => l.getLast?) =
      (outermostMatches "x" exRoot.Children).map some ∧
    ([exRoot, exA, exB] : List Group).head? = some exRoot :=
  ⟨(c7_amended_findmulti exRoot "x").1,
   (c7_amended_findmulti exRoot "x").2.1 [exRoot, exA, exB]
     (by rw [show FindMultiElement exRoot "x" =
         [[exRoot, exA], [exRoot, exA, exB]] from rfl]
         exact List.mem_cons.mpr (Or.inr (List.mem_cons_self _ _)))⟩

theorem endsSvg_append (b : List Char) : endsSvg (b ++ svgSuffix) = true := by
  simp only [endsSvg, List.length_append]
  have h4 : svgSuffix.length = 4 := rfl
  rw [h4, Nat.add_sub_cancel, List.drop_left]
  simp

theorem take_body_append (b : List Char) :
    (b ++ svgSuffix).take ((b ++ svgSuffix).length - 4) = b := by
  simp only [List.length_append]
  have h4 : svgSuffix.length = 4 := rfl
  rw [h4, Nat.add_sub_cancel, List.take_left]

theorem endsSvg_decomp (l : List Char) (h : endsSvg l = true) :
    l = l.take (l.length - 4) ++ svgSuffix := by
  simp only [endsSvg, decide_eq_true_eq] at h
  conv_lhs => rw [← List.take_append_drop (l.length - 4) l]
  rw [h]

/-- C8 counterexample: `FileToParts` accepts `01234-Zzz.svg` and
returns `Zzz` as its suffix token although `Zzz` is not one of the
enumerated variant tokens and the `Variant` pattern does not match the
name at all — the filename grammar the parser accepts has an OPEN
suffix-token set, not the fixed enumerated closed set the claim
states. -/
theorem c8_counterexample_open_suffix :
    FileToParts "01234-Zzz.svg" = ("01234-Zzz", 4660, "Zzz") ∧
    variantTokens.all (fun t => decide (t ≠ "Zzz")) = true ∧
    VariantMatch "01234-Zzz.svg" = false := ⟨by decide, by decide, by decide⟩

/-- C8 (amended): the filename parser `FileToParts` accepts exactly the
names ending in `hex5 ("-" token)? ".svg"` where `token` is one ASCII
letter followed by ASCII letters/digits — the token set is open and not
restricted to the enumerated variant set, which lives only in the
separate `Variant` pattern. -/
theorem c8_amended_filename_grammar (l : List Char) :
    (filePartMatch l).isSome = true ↔
      ∃ pre core, validCore core = true ∧ l = pre ++ (core ++ svgSuffix) := by
  constructor
  · intro h
    by_cases hends : endsSvg l = true
    · rw [filePartMatch, if_pos hends] at h
      simp only [] at h
      split at h
      · next j heq =>
        have hp := List.find?_some heq
        simp only [Bool.and_eq_true, decide_eq_true_eq] at hp
        refine ⟨(l.take (l.length - 4)).take (j + 1),
          (l.take (l.length - 4)).drop (j + 1), hp.2, ?_⟩
        calc l = l.take (l.length - 4) ++ svgSuffix := endsSvg_decomp l hends
        _ = ((l.take (l.length - 4)).take (j + 1) ++
              (l.take (l.length - 4)).drop (j + 1)) ++ svgSuffix := by
            rw [List.take_append_drop]
        _ = _ := by rw [List.append_assoc]
      · split at h
        · next i heq2 =>
          have hp := List.find?_some heq2
          refine ⟨(l.take (l.length - 4)).take i,
            (l.take (l.length - 4)).drop i, hp, ?_⟩
          calc l = l.take (l.length - 4) ++ svgSuffix := endsSvg_decomp l hends
          _ = ((l.take (l.length - 4)).take i ++
                (l.take (l.length - 4)).drop i) ++ svgSuffix := by
              rw [List.take_append_drop]
          _ = _ := by rw [List.append_assoc]
        · simp at h
    · rw [filePartMatch, if_neg hends] at h
      simp at h
  · rintro ⟨pre, core, hvc, rfl⟩
    have hassoc : pre ++ (core ++ svgSuffix) = (pre ++ core) ++ svgSuffix :=
      (List.append_assoc pre core svgSuffix).symm
    rw [hassoc, filePartMatch, if_pos (endsSvg_append (pre ++ core)),
      take_body_append]
    simp only []
    split
    · simp
    · split
      · simp
      · next heq2 =>
        exfalso
        rw [List.find?_eq_none] at heq2
        refine heq2 pre.length ?_ ?_
        · rw [List.mem_range]
          simp only [List.length_append]
          omega
        · rw [List.drop_left]
          exact hvc

theorem c10_basegroup_unchecked_witness :
    BaseGroup exDocPathFirst = some (pathChild { ID := "p0", D := "M5,5" }).group ∧
    BaseGroup exDocEmpty = none :=
  ⟨c10_basegroup_unchecked.1 exDocPathFirst
      ⟨{ ID := "kvg:StrokePaths_00001" }, [pathChild { ID := "p0", D := "M5,5" }]⟩
      [⟨{ ID := "kvg:StrokeNumbers_00001" },
        [textChild { Transform := "matrix(1 0 0 1 1 1)", Content := "1" }]⟩]
      (pathChild { ID := "p0", D := "M5,5" }) [] rfl rfl,
    (c10_basegroup_unchecked.2.1 exDocEmpty).mpr (Or.inl rfl)⟩

theorem foldl_gattr_nil (g : GAttrs) : List.foldl applyGAttr g [] = g := rfl

theorem gstep_id (v : String) (x1 x2 x3 : String) (x4 : Bool) (x5 x6 : String) (x7 : Bool)
    (x8 x9 x10 x11 x12 x13 : String)
    (rest : List (String × String)) :
    List.foldl applyGAttr (GAttrs.mk x1 x2 x3 x4 x5 x6 x7 x8 x9 x10 x11 x12 x13) (optAttr "id" v ++ rest) =
      List.foldl applyGAttr (GAttrs.mk (if v = "" then x1 else v) x2 x3 x4 x5 x6 x7 x8 x9 x10 x11 x12 x13) rest := by
  by_cases h : v = "" <;> simp [optAttr, h, applyGAttr]

theorem gstep_element (v : String) (x1 x2 x3 : String) (x4 : Bool) (x5 x6 : String) (x7 : Bool)
    (x8 x9 x10 x11 x12 x13 : String)
    (rest : List (String × String)) :
    List.foldl applyGAttr (GAttrs.mk x1 x2 x3 x4 x5 x6 x7 x8 x9 x10 x11 x12 x13) (optAttr "element" v ++ rest) =
      List.foldl applyGAttr (GAttrs.mk x1 (if v = "" then x2 else v) x3 x4 x5 x6 x7 x8 x9 x10 x11 x12 x13) rest := by
  by_cases h : v = "" <;> simp [optAttr, h, applyGAttr]

theorem gstep_part (v : String) (x1 x2 x3 : String) (x4 : Bool) (x5 x6 : String) (x7 : Bool)
    (x8 x9 x10 x11 x12 x13 : String)
    (rest : List (String × String)) :
    List.foldl applyGAttr (GAttrs.mk x1 x2 x3 x4 x5 x6 x7 x8 x9 x10 x11 x12 x13) (optAttr "part" v ++ rest) =
      List.foldl applyGAttr (GAttrs.mk x1 x2 (if v = "" then x3 else v) x4 x5 x6 x7 x8 x9 x10 x11 x12 x13) rest := by
  by_cases h : v = "" <;> simp [optAttr, h, applyGAttr]

theorem gstep_variant (b : Bool) (x1 x2 x3 : String) (x4 : Bool) (x5 x6 : String) (x7 : Bool)
    (x8 x9 x10 x11 x12 x13 : String)
    (rest : List (String × String)) :
    List.foldl applyGAttr (GAttrs.mk x1 x2 x3 x4 x5 x6 x7 x8 x9 x10 x11 x12 x13) (optBoolAttr "variant" b ++ rest) =
      List.foldl applyGAttr (GAttrs.mk x1 x2 x3 (if b then true else x4) x5 x6 x7 x8 x9 x10 x11 x12 x13) rest := by
  cases b <;> simp [optBoolAttr, applyGAttr]

theorem gstep_number (v : String) (x1 x2 x3 : String) (x4 : Bool) (x5 x6 : String) (x7 : Bool)
    (x8 x9 x10 x11 x12 x13 : String)
    (rest : List (String × String)) :
    List.foldl applyGAttr (GAttrs.mk x1 x2 x3 x4 x5 x6 x7 x8 x9 x10 x11 x12 x13) (optAttr "number" v ++ rest) =
      List.foldl applyGAttr (GAttrs.mk x1 x2 x3 x4 (if v = "" then x5 else v) x6 x7 x8 x9 x10 x11 x12 x13) rest := by
  by_cases h : v = "" <;> simp [optAttr, h, applyGAttr]

theorem gstep_original (v : String) (x1 x2 x3 : String) (x4 : Bool) (x5 x6 : String) (x7 : Bool)
    (x8 x9 x10 x11 x12 x13 : String)
    (rest : List (String × String)) :
    List.foldl applyGAttr (GAttrs.mk x1 x2 x3 x4 x5 x6 x7 x8 x9 x10 x11 x12 x13) (optAttr "original" v ++ rest) =
      List.foldl applyGAttr (GAttrs.mk x1 x2 x3 x4 x5 (if v = "" then x6 else v) x7 x8 x9 x10 x11 x12 x13) rest := by
  by_cases h : v = "" <;> simp [optAttr, h, applyGAttr]

theorem gstep_partial (b : Bool) (x1 x2 x3 : String) (x4 : Bool) (x5 x6 : String) (x7 : Bool)
    (x8 x9 x10 x11 x12 x13 : String)
    (rest : List (String × String)) :
    List.foldl applyGAttr (GAttrs.mk x1 x2 x3 x4 x5 x6 x7 x8 x9 x10 x11 x12 x13) (optBoolAttr "partial" b ++ rest) =
      List.foldl applyGAttr (GAttrs.mk x1 x2 x3 x4 x5 x6 (if b then true else x7) x8 x9 x10 x11 x12 x13) rest := by
  cases b <;> simp [optBoolAttr, applyGAttr]

theorem gstep_tradForm (v : String) (x1 x2 x3 : String) (x4 : Bool) (x5 x6 : String) (x7 : Bool)
    (x8 x9 x10 x11 x12 x13 : String)
    (rest : List (String × String)) :
    List.foldl applyGAttr (GAttrs.mk x1 x2 x3 x4 x5 x6 x7 x8 x9 x10 x11 x12 x13) (optAttr "tradForm" v ++ rest) =
      List.foldl applyGAttr (GAttrs.mk x1 x2 x3 x4 x5 x6 x7 (if v = "" then x8 else v) x9 x10 x11 x12 x13) rest := by
  by_cases h : v = "" <;> simp [optAttr, h, applyGAttr]

theorem gstep_position (v : String) (x1 x2 x3 : String) (x4 : Bool) (x5 x6 : String) (x7 : Bool)
    (x8 x9 x10 x11 x12 x13 : String)
    (rest : List (String × String)) :
    List.foldl applyGAttr (GAttrs.mk x1 x2 x3 x4 x5 x6 x7 x8 x9 x10 x11 x12 x13) (optAttr "position" v ++ rest) =
      List.foldl applyGAttr (GAttrs.mk x1 x2 x3 x4 x5 x6 x7 x8 (if v = "" then x9 else v) x10 x11 x12 x13) rest := by
  by_cases h : v = "" <;> simp [optAttr, h, applyGAttr]

theorem gstep_radical (v : String) (x1 x2 x3 : String) (x4 : Bool) (x5 x6 : String) (x7 : Bool)
    (x8 x9 x10 x11 x12 x13 : String)
    (rest : List (String × String)) :
    List.foldl applyGAttr (GAttrs.mk x1 x2 x3 x4 x5 x6 x7 x8 x9 x10 x11 x12 x13) (optAttr "radical" v ++ rest) =
      List.foldl applyGAttr (GAttrs.mk x1 x2 x3 x4 x5 x6 x7 x8 x9 (if v = "" then x10 else v) x11 x12 x13) rest := by
  by_cases h : v = "" <;> simp [optAttr, h, applyGAttr]

theorem gstep_phon (v : String) (x1 x2 x3 : String) (x4 : Bool) (x5 x6 : String) (x7 : Bool)
    (x8 x9 x10 x11 x12 x13 : String)
    (rest : List (String × String)) :
    List.foldl applyGAttr (GAttrs.mk x1 x2 x3 x4 x5 x6 x7 x8 x9 x10 x11 x12 x13) (optAttr "phon" v ++ rest) =
      List.foldl applyGAttr (GAttrs.mk x1 x2 x3 x4 x5 x6 x7 x8 x9 x10 (if v = "" then x11 else v) x12 x13) rest := by
  by_cases h : v = "" <;> simp [optAttr, h, applyGAttr]

theorem gstep_radicalForm (v : String) (x1 x2 x3 : String) (x4 : Bool) (x5 x6 : String) (x7 : Bool)
    (x8 x9 x10 x11 x12 x13 : String)
    (rest : List (String × String)) :
    List.foldl applyGAttr (GAttrs.mk x1 x2 x3 x4 x5 x6 x7 x8 x9 x10 x11 x12 x13) (optAttr "radicalForm" v ++ rest) =
      List.foldl applyGAttr (GAttrs.mk x1 x2 x3 x4 x5 x6 x7 x8 x9 x10 x11 (if v = "" then x12 else v) x13) rest := by
  by_cases h : v = "" <;> simp [optAttr, h, applyGAttr]

theorem gstep_style (v : String) (x1 x2 x3 : String) (x4 : Bool) (x5 x6 : String) (x7 : Bool)
    (x8 x9 x10 x11 x12 x13 : String)
    (rest : List (String × String)) :
    List.foldl applyGAttr (GAttrs.mk x1 x2 x3 x4 x5 x6 x7 x8 x9 x10 x11 x12 x13) (optAttr "style" v ++ rest) =
      List.foldl applyGAttr (GAttrs.mk x1 x2 x3 x4 x5 x6 x7 x8 x9 x10 x11 x12 (if v = "" then x13 else v)) rest := by
  by_cases h : v = "" <;> simp [optAttr, h, applyGAttr]

theorem str_orig_collapse (v : String) : (if v = "" then "" else v) = v := by
  split <;> simp_all

theorem bool_orig_collapse (b : Bool) : (if b then true else false) = b := by
  cases b <;> rfl

/-- Decoding the attributes a group marshals recovers the attribute
record exactly: the decode allow-list covers every marshalled group
attribute. -/
theorem decodeGAttrs_encode (a : GAttrs) : decodeGAttrs (encodeGAttrs a) = a := by
  obtain ⟨i, e, pa, v, n, o, pl, tf, ps, r, ph, rf, st⟩ := a
  rw [decodeGAttrs, encodeGAttrs]
  simp only [List.append_assoc]
  rw [show ({} : GAttrs) = GAttrs.mk "" "" "" false "" "" false "" "" "" "" "" "" from rfl]
  rw [gstep_id, gstep_element, gstep_part, gstep_variant, gstep_number,
    gstep_original, gstep_partial, gstep_tradForm, gstep_position, gstep_radical,
    gstep_phon, gstep_radicalForm, ← List.append_nil (optAttr "style" st),
    gstep_style, foldl_gattr_nil]
  simp only [str_orig_collapse, bool_orig_collapse]

/-- Decoding the attributes a path marshals recovers everything except
`class`, which `Path.UnmarshalXML` drops. -/
theorem decodePathAttrs_encode (p : Path) :
    decodePathAttrs (pathAttrs p) = { p with Class := "" } := by
  obtain ⟨i, ty, d, cl⟩ := p
  by_cases h1 : ty = "" <;> by_cases h2 : cl = "" <;>
    simp [decodePathAttrs, pathAttrs, optAttr, h1, h2, applyPathAttr]

/-- Decoding the attributes a text marshals recovers transform and
class; the content arrives later as chardata. -/
theorem decodeTextAttrs_encode (t : Text) :
    decodeTextAttrs (textAttrs t) = { t with Content := "" } := by
  obtain ⟨tr, co, cl⟩ := t
  by_cases h1 : tr = "" <;> by_cases h2 : cl = "" <;>
    simp [decodeTextAttrs, textAttrs, optAttr, h1, h2, applyTextAttr]

/-- Decoding the root attributes recovers the document metadata. -/
theorem decodeSVGAttrs_encode (s : SVG) :
    (svgAttrs s).foldl applySVGAttr {} = { s with Groups := [] } := by
  obtain ⟨xm, w, h, vb, gs⟩ := s
  by_cases h1 : vb = "" <;> simp [svgAttrs, optAttr, h1, applySVGAttr]

mutual

/-- Renumbering a well-formed, text-free child keeps it well-formed
(only identifier fields change). -/
theorem wfChild_renumber (base : String) (c : Child) (nP nG : Nat)
    (hwf : wfChild c = true) (hnt : noTextChild c = true) :
    wfChild (renumberChild base c nP nG).1 = true := by
  obtain ⟨p, ga, gc, t, ig, it⟩ := c
  cases ig with
  | true =>
    simp only [wfChild, if_true, Bool.and_eq_true] at hwf
    obtain ⟨⟨⟨hit, hp⟩, ht⟩, hgc⟩ := hwf
    simp only [noTextChild, if_true] at hnt
    have := wfChildren_renumber base gc nP (nG + 1) hgc hnt
    simp only [renumberChild, if_true, wfChild, Bool.and_eq_true]
    exact ⟨⟨⟨hit, hp⟩, ht⟩, this⟩
  | false =>
    simp only [noTextChild, Bool.false_eq_true, if_false, Bool.not_eq_true'] at hnt
    subst hnt
    simp only [wfChild, Bool.false_eq_true, if_false, Bool.and_eq_true,
      decide_eq_true_eq] at hwf
    obtain ⟨⟨⟨hga, hgc⟩, ht⟩, hcl⟩ := hwf
    simp only [renumberChild, Bool.false_eq_true, if_false, wfChild,
      Bool.and_eq_true, decide_eq_true_eq]
    exact ⟨⟨⟨hga, hgc⟩, ht⟩, hcl⟩

theorem wfChildren_renumber (base : String) (cs : List Child) (nP nG : Nat)
    (hwf : wfChildren cs = true) (hnt : noTextChildren cs = true) :
    wfChildren (renumberChildren base cs nP nG).1 = true := by
  match cs with
  | [] => rfl
  | c :: rest =>
    simp only [wfChildren, Bool.and_eq_true] at hwf
    simp only [noTextChildren, Bool.and_eq_true] at hnt
    have h1 := wfChild_renumber base c nP nG hwf.1 hnt.1
    have h2 :=
      wfChildren_renumber base rest (renumberChild base c nP nG).2.1
        (renumberChild base c nP nG).2.2 hwf.2 hnt.2
    simp only [renumberChildren, wfChildren, Bool.and_eq_true]
    exact ⟨h1, h2⟩

end

/-- On children that already carry canonical labels, relabelling is the
identity. -/
theorem relabelFrom_of_labels (k : Nat) (cs : List Child)
    (h : labelsFrom k cs = true) : relabelFrom k cs = cs := by
  induction cs generalizing k with
  | nil => rfl
  | cons c rest ih =>
    obtain ⟨p, ga, gc, t, ig, it⟩ := c
    simp only [labelsFrom, Bool.and_eq_true, decide_eq_true_eq] at h
    obtain ⟨⟨hit, hco⟩, hrest⟩ := h
    subst hit
    obtain ⟨tr, co, cl⟩ := t
    simp only at hco
    subst hco
    simp [relabelFrom, ih _ hrest]

theorem string_empty_append (s : String) : "" ++ s = s := by
  cases s
  rfl

theorem skipToPathEnd_here (rest : List Tok) (f : Nat) (hf : 1 ≤ f) :
    skipToPathEnd f (Tok.tend "path" :: rest) = some rest := by
  match f with
  | 0 => omega
  | f + 1 => rfl

/-- Decoding the body a text element was encoded with recovers the
original content. -/
theorem decodeTextLoop_encode (t : Text) (rest : List Tok) (f : Nat) (hf : 2 ≤ f) :
    decodeTextLoop f 0 { t with Content := "" }
      ((if t.Content = "" then [] else [Tok.tchar t.Content]) ++
        Tok.tend "text" :: rest) = some (t, rest) := by
  obtain ⟨tr, co, cl⟩ := t
  match f with
  | 0 => omega
  | 1 => omega
  | f + 2 =>
    by_cases h : co = ""
    · subst h
      simp [decodeTextLoop]
    · simp only at h
      simp [h, decodeTextLoop, string_empty_append]

/-- Round trip for a child list inside a group body: decoding the
tokens `encodeChildren cs` followed by the group's end tag appends
exactly `cs` to the accumulator, for any sufficient fuel. -/
theorem rt_children (cs acc : List Child) (rest : List Tok) (f : Nat)
    (hwf : wfChildren cs = true)
    (hf : (encodeChildren cs).length + 1 ≤ f) :
    decodeGroupChildren f acc (encodeChildren cs ++ Tok.tend "g" :: rest) =
      some (acc ++ cs, rest) := by
  match cs with
  | [] =>
    match f with
    | 0 => simp [encodeChildren] at hf
    | f + 1 => simp [encodeChildren, decodeGroupChildren]
  | c :: cs2 =>
    obtain ⟨p, ga, gc, t, ig, it⟩ := c
    simp only [wfChildren, Bool.and_eq_true] at hwf
    obtain ⟨hw1, hw2⟩ := hwf
    cases ig with
    | true =>
      simp only [wfChild, if_true, Bool.and_eq_true, Bool.not_eq_true',
        decide_eq_true_eq] at hw1
      obtain ⟨⟨⟨hit, hp⟩, ht⟩, hgc⟩ := hw1
      subst hit
      subst hp
      subst ht
      have hlen := hf
      simp only [encodeChildren, encodeChild, if_true, List.length_append,
        List.length_cons] at hlen
      match f with
      | 0 => omega
      | f + 1 =>
        have hstream :
            encodeChildren (Child.mk {} ga gc {} true false :: cs2) ++
              Tok.tend "g" :: rest =
            Tok.tstart "g" (encodeGAttrs ga) ::
              (encodeChildren gc ++
                Tok.tend "g" :: (encodeChildren cs2 ++ Tok.tend "g" :: rest)) := by
          simp [encodeChildren, encodeChild]
        rw [hstream]
        simp only [decodeGroupChildren]
        rw [rt_children gc [] (encodeChildren cs2 ++ Tok.tend "g" :: rest) f hgc
          (by omega)]
        simp only [List.nil_append]
        rw [rt_children cs2 (acc ++ [groupChild ⟨decodeGAttrs (encodeGAttrs ga), gc⟩])
          rest f hw2 (by omega)]
        rw [decodeGAttrs_encode]
        simp [groupChild]
    | false =>
      cases it with
      | true =>
        simp only [wfChild, Bool.false_eq_true, if_false, if_true, Bool.and_eq_true,
          decide_eq_true_eq, List.isEmpty_eq_true] at hw1
        obtain ⟨⟨hp, hga⟩, hgc⟩ := hw1
        subst hp
        subst hga
        subst hgc
        have hlen := hf
        simp only [encodeChildren, encodeChild, Bool.false_eq_true, if_false,
          if_true, encodeTextToks, List.length_append, List.length_cons] at hlen
        match f with
        | 0 => omega
        | f + 1 =>
          have hstream :
              encodeChildren (Child.mk {} {} [] t false true :: cs2) ++
                Tok.tend "g" :: rest =
              Tok.tstart "text" (textAttrs t) ::
                (((if t.Content = "" then [] else [Tok.tchar t.Content]) ++
                  Tok.tend "text" :: []) ++
                  (encodeChildren cs2 ++ Tok.tend "g" :: rest)) := by
            simp [encodeChildren, encodeChild, encodeTextToks]
          rw [hstream]
          simp only [decodeGroupChildren]
          have hbody :
              ((if t.Content = "" then [] else [Tok.tchar t.Content]) ++
                Tok.tend "text" :: []) ++
                (encodeChildren cs2 ++ Tok.tend "g" :: rest) =
              (if t.Content = "" then [] else [Tok.tchar t.Content]) ++
                Tok.tend "text" :: (encodeChildren cs2 ++ Tok.tend "g" :: rest) := by
            simp
          rw [hbody, decodeTextAttrs_encode,
            decodeTextLoop_encode t (encodeChildren cs2 ++ Tok.tend "g" :: rest) f
              (by split at hlen <;> simp at hlen <;> omega)]
          simp only []
          rw [rt_children cs2 (acc ++ [textChild t]) rest f hw2 (by
            split at hlen <;> simp at hlen <;> omega)]
          simp [textChild]
      | false =>
        simp only [wfChild, Bool.false_eq_true, if_false, Bool.and_eq_true,
          decide_eq_true_eq, List.isEmpty_eq_true] at hw1
        obtain ⟨⟨⟨hga, hgc⟩, ht⟩, hcl⟩ := hw1
        subst hga
        subst hgc
        subst ht
        have hlen := hf
        simp only [encodeChildren, encodeChild, Bool.false_eq_true, if_false,
          encodePathToks, List.length_append, List.length_cons] at hlen
        match f with
        | 0 => omega
        | f + 1 =>
          have hstream :
              encodeChildren (Child.mk p {} [] {} false false :: cs2) ++
                Tok.tend "g" :: rest =
              Tok.tstart "path" (pathAttrs p) ::
                (Tok.tend "path" :: (encodeChildren cs2 ++ Tok.tend "g" :: rest)) := by
            simp [encodeChildren, encodeChild, encodePathToks]
          rw [hstream]
          simp only [decodeGroupChildren]
          rw [skipToPathEnd_here (encodeChildren cs2 ++ Tok.tend "g" :: rest) f
            (by omega)]
          simp only []
          rw [rt_children cs2 (acc ++ [pathChild (decodePathAttrs (pathAttrs p))])
            rest f hw2 (by omega)]
          rw [decodePathAttrs_encode]
          have hpc : { p with Class := "" } = p := by
            obtain ⟨i, ty, d, cl⟩ := p
            simp only at hcl
            subst hcl
            rfl
          rw [hpc]
          simp [pathChild]

/-- Round trip for the root's group list. -/
theorem rt_groups (gs acc : List Group) (f : Nat)
    (hwf : (gs.all fun g => wfChildren g.Children) = true)
    (hf : ((gs.map encodeGroupToks).flatten).length + 1 ≤ f) :
    decodeSVGGroups f acc ((gs.map encodeGroupToks).flatten ++ [Tok.tend "svg"]) =
      some (acc ++ gs) := by
  match gs with
  | [] =>
    match f with
    | 0 => simp at hf
    | f + 1 => simp [decodeSVGGroups]
  | g :: gs2 =>
    obtain ⟨ga, cs⟩ := g
    simp only [List.all_cons, Bool.and_eq_true] at hwf
    have hlen := hf
    simp only [List.map_cons, List.flatten_cons, encodeGroupToks,
      List.length_append, List.length_cons] at hlen
    match f with
    | 0 => omega
    | f + 1 =>
      have hstream :
          ((Group.mk ga cs :: gs2).map encodeGroupToks).flatten ++ [Tok.tend "svg"] =
          Tok.tstart "g" (encodeGAttrs ga) ::
            (encodeChildren cs ++
              Tok.tend "g" :: ((gs2.map encodeGroupToks).flatten ++ [Tok.tend "svg"])) := by
        simp [encodeGroupToks]
      rw [hstream]
      simp only [decodeSVGGroups]
      rw [rt_children cs [] ((gs2.map encodeGroupToks).flatten ++ [Tok.tend "svg"]) f
        hwf.1 (by omega)]
      simp only [List.nil_append]
      rw [decodeGAttrs_encode]
      rw [rt_groups gs2 (acc ++ [Group.mk ga cs]) f hwf.2 (by omega)]
      simp

/-- Decoding the tokens a well-formed document marshals to recovers the
document exactly. -/
theorem ParseKanji_encode (s : SVG) (hwf : wfSVG s = true) :
    ParseKanji (encodeSVGToks s) = some s := by
  obtain ⟨xm, w, h, vb, gs⟩ := s
  simp only [wfSVG] at hwf
  simp only [encodeSVGToks, ParseKanji]
  rw [List.length_append]
  rw [rt_groups gs [] (((gs.map encodeGroupToks).flatten).length + [Tok.tend "svg"].length + 1)
    hwf (by simp)]
  simp only [List.nil_append]
  have hattrs := decodeSVGAttrs_encode (SVG.mk xm w h vb gs)
  rw [hattrs]

/-- C2: for a document decoded from canonical input (`Canonical`),
decoding the tokens produced by encoding it succeeds and yields a
document structurally equal to the original, where structural equality
ignores the re-derived identifier and style attributes (whitespace does
not exist at the token level). -/
theorem c2_decode_encode_roundtrip (d : SVG) (h : Canonical d = true) :
    ∃ e, (MakeXML d).bind ParseKanji = some e ∧ eraseISSVG e = eraseISSVG d := by
  match hg : d.Groups with
  | [] => simp [Canonical, hg] at h
  | [g0] => simp [Canonical, hg] at h
  | g0 :: g1 :: g2 :: gs => simp [Canonical, hg] at h
  | [g0, g1] =>
    simp only [Canonical, hg] at h
    match hc : g0.Children with
    | [] => simp [hc] at h
    | c0 :: c1 :: cs => simp [hc] at h
    | [c0] =>
      simp only [hc, Bool.and_eq_true] at h
      obtain ⟨⟨hcg, hwfall⟩, hlab⟩ := h
      simp only [wfSVG, hg, List.all_cons, List.all_nil, Bool.and_eq_true] at hwfall
      obtain ⟨hwf0, hwf1, _⟩ := hwfall
      rw [hc] at hwf0
      simp only [wfChildren, Bool.and_eq_true] at hwf0
      obtain ⟨hwfc0, _⟩ := hwf0
      obtain ⟨cp, cga, cgc, ct, cig, cit⟩ := c0
      simp only [Child.IsGroup, Child.gchildren, Bool.and_eq_true] at hcg
      obtain ⟨hcig, hnt⟩ := hcg
      subst hcig
      simp only [wfChild, if_true, Bool.and_eq_true, Bool.not_eq_true',
        decide_eq_true_eq] at hwfc0
      obtain ⟨⟨⟨hcit, hcp⟩, hct⟩, hwfgc⟩ := hwfc0
      subst hcit
      subst hcp
      subst hct
      have hR := RenumberXML_eq d g0 g1 [] (Child.mk {} cga cgc {} true false) []
        hg hc
      simp only [Child.path, Child.gattrs, Child.gchildren, Child.text,
        Child.IsGroup, Child.IsText] at hR
      have hrel : relabelFrom 1 g1.Children = g1.Children :=
        relabelFrom_of_labels 1 g1.Children hlab
      rw [hrel] at hR
      have hwfr : wfChildren (renumberChildren cga.ID cgc 0 0).1 = true :=
        wfChildren_renumber cga.ID cgc 0 0 hwfgc hnt
      rw [MakeXML, hR]
      simp only [Option.map_some', Option.some_bind]
      rw [ParseKanji_encode _ (by
        simp only [wfSVG, List.all_cons, List.all_nil, Bool.and_eq_true]
        refine ⟨?_, hwf1, trivial⟩
        simp [wfChildren, wfChild, hwfr])]
      refine ⟨_, rfl, ?_⟩
      simp only [eraseISSVG, hg, List.map_cons, List.map_nil]
      simp [eraseGroup, eraseChildren, eraseChild, hc, eraseChildren_renumber]

/-- C3: a well-formed document with a single top-level group (the
stroke-number group is optional by the file format) makes `Encode`
(`MakeXML`) panic instead of treating the label pass as a no-op:
`RenumberLabels` reads `kvg.Groups[1]` unconditionally. -/
theorem c3_encode_panics_on_single_group :
    wfSVG exDocOne = true ∧ Canonical exDocOne = false ∧
    RenumberLabels exDocOne = none ∧ RenumberXML exDocOne = none ∧
    MakeXML exDocOne = none :=
  ⟨rfl, rfl, rfl, rfl, rfl⟩

/-- C4: the style pass does NOT clear descendant group styles.
`removeChildStyles` iterates over copies (`for _, child := range c`)
and writes only into those discarded copies, so it leaves the tree
unchanged; after a full `RenumberXML` the descendant style is still
`"fill:red"`, while the clearing the loop body computes on the copies
(`removeChildStylesLoop`, which the spec describes) would have left
`""`. -/
theorem c4_descendant_styles_not_cleared :
    (∀ g : Group, removeChildStyles g = g) ∧
    (RenumberXML exDocStyled).bind firstDescendantStyle = some "fill:red" ∧
    firstStyleIn (removeChildStylesLoop [groupChild exInner]) = some "" ∧
    ("fill:red" : String) ≠ "" :=
  ⟨fun _ => rfl, rfl, rfl, by decide⟩

theorem c2_decode_encode_roundtrip_witness :
    Canonical exDoc = true ∧
    ∃ e, (MakeXML exDoc).bind ParseKanji = some e ∧
      eraseISSVG e = eraseISSVG exDoc :=
  ⟨rfl, c2_decode_encode_roundtrip exDoc rfl⟩

end kvg
